import Mathlib

/-!
# Verification of the FlyTracer mesh ingestion and spatial-index pipeline

Shallow embedding of `src/engine/src/Mesh.cpp` (class `Mesh`): vertex
welding (`loadFromFile`), normal synthesis (`computeNormals`), material
access (`getMaterial`), greedy edge-collapse simplification (`decimate`)
and the binned-SAH BVH builder (`buildBVH` / `subdivideNode` /
`evaluateSAH` / `updateNodeBounds`).

Modelling conventions:
* `float` arithmetic is embedded as exact rational arithmetic (`ℚ`).
  Numeric literals such as `1e-6f` become the exact rationals they denote.
* `std::sqrt` and `std::acos` are transcendental; functions that use them
  take explicit parameters `sq ac : ℚ → ℚ` standing for those library
  routines.  Theorems that depend on `sqrt` behaviour hypothesise the
  defining equations of the square root only at the concretely used
  arguments.
* `uint32_t` indices are embedded as `ℕ`; `int32_t` node fields
  (`leftFirst`, `triCount` of `Scene::BVHNode`) are embedded as `ℤ`.
  No quantity in the modelled code paths approaches `2^31`, so wrap-around
  is not modelled.
* `std::vector` becomes `Array`; out-of-bounds reads of the C++ code do
  not occur in the verified paths, and the embedding uses total `getD` /
  guarded `set` helpers.
* Recursive procedures whose C++ termination argument is extrinsic
  (`subdivideNode`, the decimation collapse loop, union-find `findRoot`)
  take an explicit fuel argument; call sites pass fuel that provably or
  by construction dominates the real recursion depth, and loops report
  whether they finished normally where that matters.
-/

/-- A 3-vector of rationals, modelling three `float`s (the PGA `TriVector`
position components `e032/e013/e021` and `Vector` normal components
`e1/e2/e3` are stored this way). -/
structure Vec3 where
  x : ℚ
  y : ℚ
  z : ℚ
deriving DecidableEq, Repr

instance : Inhabited Vec3 := ⟨⟨0, 0, 0⟩⟩

/-- Coordinate access by axis number 0/1/2, as the C++ code indexes
`float[3]` arrays. -/
def Vec3.nth (v : Vec3) (axis : ℕ) : ℚ :=
  if axis = 0 then v.x else if axis = 1 then v.y else v.z

/-- Squared Euclidean length of a 3-vector. -/
def Vec3.normSq (v : Vec3) : ℚ := v.x * v.x + v.y * v.y + v.z * v.z

/-- `std::clamp(v, lo, hi)`: `v < lo ? lo : hi < v ? hi : v`. -/
def clampQ (v lo hi : ℚ) : ℚ := if v < lo then lo else if hi < v then hi else v

/-- Total array read with default, modelling an in-bounds `operator[]`
read (all modelled reads are in bounds in the verified code paths). -/
def getN {α : Type} (a : Array α) (i : ℕ) (d : α) : α := a.getD i d

/-- Total array write, modelling an in-bounds `operator[]` write. -/
def setN {α : Type} (a : Array α) (i : ℕ) (v : α) : Array α :=
  if h : i < a.size then a.set ⟨i, h⟩ v else a

/-- `Mesh.h` `struct Vertex`: PGA position, PGA normal, texture
coordinates.  The constant components (`e123 = 1` of the position,
`e0 = 0` of the normal) are omitted; the code never varies them. -/
structure Vertex where
  position : Vec3
  normal : Vec3
  texCoord : ℚ × ℚ
deriving DecidableEq, Repr

instance : Inhabited Vertex := ⟨⟨default, default, (0, 0)⟩⟩

/-- `Mesh.h` `struct Triangle`: three vertex indices and a material
index. -/
structure Triangle where
  i0 : ℕ
  i1 : ℕ
  i2 : ℕ
  materialIndex : ℕ
deriving DecidableEq, Repr

instance : Inhabited Triangle := ⟨⟨0, 0, 0, 0⟩⟩

/-- Index of a triangle by position 0/1/2, as the C++ `tri.indices[v]`. -/
def Triangle.idx (t : Triangle) (v : ℕ) : ℕ :=
  if v = 0 then t.i0 else if v = 1 then t.i1 else t.i2

/-- `Mesh.h` `struct Material` (shading fields; the `ShadingMode` enum and
GPU padding are irrelevant to the verified behaviour and omitted). -/
structure Material where
  name : String
  ambient : Vec3
  diffuse : Vec3
  specular : Vec3
  shininess : ℚ
  emission : Vec3
  opacity : ℚ
  diffuseTexturePath : String
  specularTexturePath : String
deriving DecidableEq, Repr

/-- The default-constructed `Material` (`Mesh.h` in-class initialisers). -/
def defaultMaterial : Material :=
  { name := ""
    ambient := ⟨1/10, 1/10, 1/10⟩
    diffuse := ⟨8/10, 8/10, 8/10⟩
    specular := ⟨1, 1, 1⟩
    shininess := 32
    emission := ⟨0, 0, 0⟩
    opacity := 1
    diffuseTexturePath := ""
    specularTexturePath := "" }

instance : Inhabited Material := ⟨defaultMaterial⟩

/-- The mesh state relevant to the verified pipeline: `m_vertices`,
`m_triangles`, `m_materials`. -/
structure Mesh where
  vertices : Array Vertex
  triangles : Array Triangle
  materials : Array Material
deriving DecidableEq, Repr

/-- A concrete one-material mesh used as a witness input. -/
def oneMatMesh : Mesh :=
  { vertices := #[], triangles := #[], materials := #[defaultMaterial] }

/-- All triangle vertex indices reference valid vertices. -/
def Mesh.WFIndices (m : Mesh) : Prop :=
  ∀ t ∈ m.triangles.toList, t.i0 < m.vertices.size ∧ t.i1 < m.vertices.size ∧
    t.i2 < m.vertices.size

instance (m : Mesh) : Decidable m.WFIndices := by
  unfold Mesh.WFIndices; infer_instance

/-- `Mesh::getMaterial(size_t)` (`Mesh.cpp` lines 225-231): throws
`std::out_of_range` when `index >= m_materials.size()`, otherwise returns
`m_materials[index]`.  The throw is embedded as `Except.error`; the
method is `const`, so the mesh state is unchanged by construction. -/
def Mesh.getMaterial (m : Mesh) (index : ℕ) : Except String Material :=
  if m.materials.size ≤ index then
    .error "Material index out of range"
  else
    .ok (getN m.materials index defaultMaterial)

/-! ## Normal synthesis: `Mesh::computeNormals` (`Mesh.cpp` 257-352) -/

/-- One triangle's angle-weighted accumulation step (`Mesh.cpp` 264-336).
`sq`/`ac` stand for `std::sqrt`/`std::acos`.  Reads positions, adds the
weighted outward face normal into the three vertices' normals. -/
def accumStep (sq ac : ℚ → ℚ) (vs : Array Vertex) (tri : Triangle) : Array Vertex :=
  let p0 := (getN vs tri.i0 default).position
  let p1 := (getN vs tri.i1 default).position
  let p2 := (getN vs tri.i2 default).position
  let e01 : Vec3 := ⟨p1.x - p0.x, p1.y - p0.y, p1.z - p0.z⟩
  let e02 : Vec3 := ⟨p2.x - p0.x, p2.y - p0.y, p2.z - p0.z⟩
  -- negated cross product: OBJ winding is clockwise seen from outside
  let nx := -(e01.y * e02.z - e01.z * e02.y)
  let ny := -(e01.z * e02.x - e01.x * e02.z)
  let nz := -(e01.x * e02.y - e01.y * e02.x)
  let faceLen := sq (nx * nx + ny * ny + nz * nz)
  if faceLen < 1/10000 then vs
  else
    let fn : Vec3 := ⟨nx / faceLen, ny / faceLen, nz / faceLen⟩
    let e10 : Vec3 := ⟨p0.x - p1.x, p0.y - p1.y, p0.z - p1.z⟩
    let e12 : Vec3 := ⟨p2.x - p1.x, p2.y - p1.y, p2.z - p1.z⟩
    let e20 : Vec3 := ⟨p0.x - p2.x, p0.y - p2.y, p0.z - p2.z⟩
    let e21 : Vec3 := ⟨p1.x - p2.x, p1.y - p2.y, p1.z - p2.z⟩
    let dot3 : Vec3 → Vec3 → ℚ := fun a b => a.x * b.x + a.y * b.y + a.z * b.z
    let len3 : Vec3 → ℚ := fun a => sq (a.x * a.x + a.y * a.y + a.z * a.z)
    let angAt : Vec3 → Vec3 → ℚ := fun u v =>
      if 1/10000 < len3 u ∧ 1/10000 < len3 v then
        ac (clampQ (dot3 u v / (len3 u * len3 v)) (-1) 1)
      else 0
    let angle0 := angAt e01 e02
    let angle1 := angAt e10 e12
    let angle2 := angAt e20 e21
    let addW : Array Vertex → ℕ → ℚ → Array Vertex := fun a i w =>
      let v := getN a i default
      setN a i { v with normal := ⟨v.normal.x + fn.x * w, v.normal.y + fn.y * w,
                                   v.normal.z + fn.z * w⟩ }
    addW (addW (addW vs tri.i0 angle0) tri.i1 angle1) tri.i2 angle2

/-- Reset loop (`Mesh.cpp` 259-261) followed by the accumulation loop over
all triangles. -/
def accumNormals (sq ac : ℚ → ℚ) (tris : Array Triangle) (vs : Array Vertex) :
    Array Vertex :=
  tris.foldl (accumStep sq ac)
    (vs.map fun v => { v with normal := ⟨0, 0, 0⟩ })

/-- Final normalisation pass (`Mesh.cpp` 338-352): divide by the length if
it exceeds `1e-4`, otherwise install the fixed default up normal, which is
`Vector(0,0,1,0)`, i.e. normal components `(0, 1, 0)`. -/
def normalizePass (sq : ℚ → ℚ) (vs : Array Vertex) : Array Vertex :=
  vs.map fun v =>
    let len := sq v.normal.normSq
    if 1/10000 < len then
      { v with normal := ⟨v.normal.x / len, v.normal.y / len, v.normal.z / len⟩ }
    else
      { v with normal := ⟨0, 1, 0⟩ }

/-- `Mesh::computeNormals` (`Mesh.cpp` 257-352). -/
def Mesh.computeNormals (sq ac : ℚ → ℚ) (m : Mesh) : Mesh :=
  { m with vertices := normalizePass sq (accumNormals sq ac m.triangles m.vertices) }

/-! ## Loading and welding: `Mesh::loadFromFile` (`Mesh.cpp` 24-202)

The external parser (tinyobjloader) is an excluded collaborator; the model
starts from its successful output: per-face raw vertex attributes and a
material list already converted to `Material` records (the conversion loop
`Mesh.cpp` 44-83 is a 1:1 field copy).  The position-only vertex hash
(`Mesh.cpp` 94-99, `std::hash<float>` combination) is abstracted as a
parameter `hashF`; the code looks vertices up by hash alone, treating
collisions as identity, which the model reproduces exactly. -/

/-- One parsed face-vertex: optional position / normal / texture
coordinate (absent when the corresponding OBJ index is negative or the
attribute array is missing). -/
structure RawVertexData where
  pos : Option Vec3
  normal : Option Vec3
  uv : Option (ℚ × ℚ)
deriving DecidableEq, Repr

/-- One parsed face: its vertex attributes and `material_ids` entry
(`-1` when the face has no material). -/
structure RawFace where
  verts : List RawVertexData
  matId : ℤ
deriving DecidableEq, Repr

/-- `Mesh.cpp` 124-160: build the welded-candidate `Vertex` from raw
attributes: default position/normal when absent, V texture coordinate
flipped to `1 - v`. -/
def buildVertex (rv : RawVertexData) : Vertex :=
  { position := rv.pos.getD ⟨0, 0, 0⟩
    normal := rv.normal.getD ⟨0, 0, 0⟩
    texCoord := match rv.uv with
      | some (u, v) => (u, 1 - v)
      | none => (0, 0) }

/-- `std::unordered_map<size_t,uint32_t>` lookup, modelled as first match
in an association list with unique keys. -/
def lookupHash : List (ℕ × ℕ) → ℕ → Option ℕ
  | [], _ => none
  | (k, v) :: rest, h => if k = h then some v else lookupHash rest h

/-- Welding state: the `vertexMap`, `m_vertices` and `m_triangles` under
construction. -/
structure WeldState where
  map : List (ℕ × ℕ)
  verts : Array Vertex
  tris : Array Triangle
deriving Repr

/-- Weld one raw vertex (`Mesh.cpp` 162-175): reuse the index stored under
its hash if present, else append a new vertex and record it. -/
def weldOne (hashF : Vertex → ℕ) (acc : WeldState × List ℕ) (rv : RawVertexData) :
    WeldState × List ℕ :=
  let vtx := buildVertex rv
  let h := hashF vtx
  match lookupHash acc.1.map h with
  | some idx => (acc.1, acc.2 ++ [idx])
  | none =>
      let idx := acc.1.verts.size
      ({ acc.1 with verts := acc.1.verts.push vtx, map := (h, idx) :: acc.1.map },
        acc.2 ++ [idx])

/-- Process one face (`Mesh.cpp` 105-180): a face with other than 3
vertices is skipped (diagnostic only); otherwise its three vertices are
welded and one triangle is appended, carrying the face's material id
(clamped to 0 when negative). -/
def processFace (hashF : Vertex → ℕ) (st : WeldState) (f : RawFace) : WeldState :=
  if f.verts.length ≠ 3 then st
  else
    let matIdx : ℕ := if 0 ≤ f.matId then f.matId.toNat else 0
    let r := f.verts.foldl (weldOne hashF) (st, [])
    { r.1 with
      tris := r.1.tris.push
        ⟨r.2.getD 0 0, r.2.getD 1 0, r.2.getD 2 0, matIdx⟩ }

/-- `Mesh::loadFromFile` after a successful parse (`Mesh.cpp` 40-202):
convert materials (synthesising the "default" material when none were
provided), weld all faces of all shapes (shape iteration concatenates the
face lists), synthesise normals when any welded vertex's supplied normal
has squared length below `1e-6`, and report success iff the welded vertex
array is non-empty. -/
def loadModel (hashF : Vertex → ℕ) (sq ac : ℚ → ℚ) (objMaterials : List Material)
    (faces : List RawFace) : Mesh × Bool :=
  let mats := if objMaterials.isEmpty then
      [{ defaultMaterial with name := "default" }] else objMaterials
  let st := faces.foldl (processFace hashF) ⟨[], #[], #[]⟩
  let m : Mesh := { vertices := st.verts, triangles := st.tris,
                    materials := mats.toArray }
  let needs := st.verts.toList.any fun v => decide (v.normal.normSq < 1/1000000)
  let m2 := if needs then m.computeNormals sq ac else m
  (m2, !st.verts.isEmpty)

/-- A concrete non-triangle face (4 vertices) used as a witness input. -/
def quadFace : RawFace :=
  { verts := [⟨some ⟨0,0,0⟩, none, none⟩, ⟨some ⟨1,0,0⟩, none, none⟩,
              ⟨some ⟨1,1,0⟩, none, none⟩, ⟨some ⟨0,1,0⟩, none, none⟩]
    matId := -1 }

/-- A concrete triangle face used as a witness input. -/
def triFace : RawFace :=
  { verts := [⟨some ⟨0,0,0⟩, none, none⟩, ⟨some ⟨1,0,0⟩, none, none⟩,
              ⟨some ⟨1,1,0⟩, none, none⟩]
    matId := 0 }

/-! ## BVH construction (`Mesh.cpp` 715-932)

`Scene::BVHNode` (`Scene.h` 328-333), `Mesh::buildBVH`,
`Mesh::updateNodeBounds`, `Mesh::evaluateSAH`, `Mesh::subdivideNode`.
The diagnostic degenerate-triangle count of `buildBVH` (lines 728-760)
only prints a warning and is omitted.  `subdivideNode`'s recursion
strictly decreases the node triangle count towards the `≤ 4` base case,
so its depth from a node with `n` triangles is below `n`; the model makes
this explicit with a fuel argument and `buildBVH` passes the triangle
count as fuel.  Likewise the two-pointer partition loop shrinks the
window `[i, j]` by one per iteration, so `triCount + 1` fuel dominates
it. -/

/-- The float value `1e30f` used as the infinite bound / cost sentinel. -/
def bigQ : ℚ := 10 ^ 30

/-- `Scene::BVHNode`: bounds, `leftFirst` (leaf: first entry of the
node's permutation range; internal: left child index) and `triCount`
(0 marks an internal node).  Both are `int32_t`, embedded as `ℤ`. -/
structure BVHNode where
  minBounds : Vec3
  maxBounds : Vec3
  leftFirst : ℤ
  triCount : ℤ
deriving DecidableEq, Repr

/-- Default `BVHNode` as value-initialised in `Scene.h`. -/
instance : Inhabited BVHNode :=
  ⟨⟨⟨bigQ, bigQ, bigQ⟩, ⟨-bigQ, -bigQ, -bigQ⟩, 0, 0⟩⟩

/-- The BVH builder's mutable state: `m_bvhNodes` and `m_bvhTriIndices`. -/
structure BVHState where
  nodes : Array BVHNode
  triIdx : Array ℕ
deriving DecidableEq, Repr

/-- Guarded swap, modelling `std::swap(m_bvhTriIndices[i], m_bvhTriIndices[j])`
(always in bounds in the verified code path). -/
def swapN {α : Type} (a : Array α) (i j : ℕ) : Array α :=
  if h : i < a.size ∧ j < a.size then a.swap ⟨i, h.1⟩ ⟨j, h.2⟩ else a

/-- Per-triangle centroid cache `m_triCentroids` (`Mesh.cpp` 726-756):
a flat array, three rationals per triangle (mean of the three vertex
positions, componentwise). -/
def triCentroids (m : Mesh) : Array ℚ :=
  (List.range m.triangles.size).foldl
    (fun acc i =>
      let tri := getN m.triangles i default
      let p0 := (getN m.vertices tri.i0 default).position
      let p1 := (getN m.vertices tri.i1 default).position
      let p2 := (getN m.vertices tri.i2 default).position
      ((acc.push ((p0.x + p1.x + p2.x) / 3)).push
        ((p0.y + p1.y + p2.y) / 3)).push ((p0.z + p1.z + p2.z) / 3))
    #[]

/-- Grow an AABB to contain a point (the `std::min`/`std::max` update
pattern of `updateNodeBounds` / `evaluateSAH`). -/
def growBox (b : Vec3 × Vec3) (p : Vec3) : Vec3 × Vec3 :=
  (⟨min b.1.x p.x, min b.1.y p.y, min b.1.z p.z⟩,
   ⟨max b.2.x p.x, max b.2.y p.y, max b.2.z p.z⟩)

/-- Grow an AABB by a triangle's three vertex positions
(the inner `for (int j = 0; j < 3; ++j)` loops). -/
def growTri (m : Mesh) (b : Vec3 × Vec3) (tri : Triangle) : Vec3 × Vec3 :=
  growBox (growBox (growBox b (getN m.vertices tri.i0 default).position)
      (getN m.vertices tri.i1 default).position)
    (getN m.vertices tri.i2 default).position

/-- The SAH area proxy: sum of the three pairwise products of the box
extents (`Mesh.cpp` 846-850, 890). -/
def boxArea (b : Vec3 × Vec3) : ℚ :=
  (b.2.x - b.1.x) * (b.2.y - b.1.y) + (b.2.y - b.1.y) * (b.2.z - b.1.z) +
    (b.2.z - b.1.z) * (b.2.x - b.1.x)

/-- `Mesh::evaluateSAH` (`Mesh.cpp` 801-853): accumulate left/right boxes
and counts by comparing each triangle's cached centroid coordinate with
the candidate position (strictly less goes left); `1e30` when either side
is empty, else `leftCount·leftArea + rightCount·rightArea`. -/
def evaluateSAH (m : Mesh) (centro : Array ℚ) (st : BVHState) (nodeIdx : ℕ)
    (axis : ℕ) (pos : ℚ) : ℚ :=
  let node := getN st.nodes nodeIdx default
  let r := (List.range node.triCount.toNat).foldl
    (fun (acc : (Vec3 × Vec3) × (Vec3 × Vec3) × ℕ × ℕ) (i : ℕ) =>
      let triIdx := getN st.triIdx (node.leftFirst + (i : ℤ)).toNat 0
      let c := getN centro (triIdx * 3 + axis) 0
      let tri := getN m.triangles triIdx default
      if c < pos then (growTri m acc.1 tri, acc.2.1, acc.2.2.1 + 1, acc.2.2.2)
      else (acc.1, growTri m acc.2.1 tri, acc.2.2.1, acc.2.2.2 + 1))
    ((⟨bigQ, bigQ, bigQ⟩, ⟨-bigQ, -bigQ, -bigQ⟩),
     (⟨bigQ, bigQ, bigQ⟩, ⟨-bigQ, -bigQ, -bigQ⟩), 0, 0)
  if r.2.2.1 = 0 ∨ r.2.2.2 = 0 then bigQ
  else (r.2.2.1 : ℚ) * boxArea r.1 + (r.2.2.2 : ℚ) * boxArea r.2.1

/-- The candidate split positions examined on one axis
(`Mesh.cpp` 873-879): none when the axis extent is below `1e-6`,
otherwise the positions `minBounds + extent·b/8` for `b = 1..NUM_BINS-1`
(`NUM_BINS = 8`, so the loop body runs for `b ∈ {1,…,7}`). -/
def axisCandidates (node : BVHNode) (axis : ℕ) : List ℚ :=
  let extent := node.maxBounds.nth axis - node.minBounds.nth axis
  if extent < 1/1000000 then []
  else (List.range' 1 7).map fun (b : ℕ) =>
    node.minBounds.nth axis + extent * (b : ℚ) / 8

/-- The best-split search of `subdivideNode` (`Mesh.cpp` 868-887): fold
`evaluateSAH` over all candidates in code order (axes ascending, positions
ascending), keeping the strictly improving `(axis, pos, cost)`, starting
from `(0, 0, 1e30)`. -/
def bestSplit (m : Mesh) (centro : Array ℚ) (st : BVHState) (nodeIdx : ℕ) :
    ℕ × ℚ × ℚ :=
  (List.range 3).foldl
    (fun best axis =>
      (axisCandidates (getN st.nodes nodeIdx default) axis).foldl
        (fun best pos =>
          let cost := evaluateSAH m centro st nodeIdx axis pos
          if cost < best.2.2 then (axis, pos, cost) else best)
        best)
    (0, 0, bigQ)

/-- The in-place two-pointer partition loop (`Mesh.cpp` 896-908).  The
loop window shrinks by one each iteration; the fuel passed by
`subdivideNode` (`triCount + 1`) strictly dominates the iteration count,
so the fuel-exhaustion branch is unreachable there. -/
def partitionLoop (centro : Array ℚ) (axis : ℕ) (pos : ℚ) :
    ℕ → Array ℕ → ℤ → ℤ → Array ℕ × ℤ
  | 0, arr, i, _ => (arr, i)
  | fuel + 1, arr, i, j =>
    if i ≤ j then
      let t := getN arr i.toNat 0
      if getN centro (t * 3 + axis) 0 < pos then
        partitionLoop centro axis pos fuel arr (i + 1) j
      else
        partitionLoop centro axis pos fuel (swapN arr i.toNat j.toNat) i (j - 1)
    else (arr, i)

/-- `Mesh::updateNodeBounds` (`Mesh.cpp` 779-799): recompute a node's
bounds from the vertex positions of the triangles in its permutation
range, starting from the `(1e30, -1e30)` sentinels. -/
def updateNodeBounds (m : Mesh) (st : BVHState) (nodeIdx : ℕ) : BVHState :=
  let node := getN st.nodes nodeIdx default
  let r := (List.range node.triCount.toNat).foldl
    (fun b (i : ℕ) =>
      let triIdx := getN st.triIdx (node.leftFirst + (i : ℤ)).toNat 0
      growTri m b (getN m.triangles triIdx default))
    ((⟨bigQ, bigQ, bigQ⟩ : Vec3), (⟨-bigQ, -bigQ, -bigQ⟩ : Vec3))
  let node2 := { node with minBounds := r.1, maxBounds := r.2 }
  { st with nodes := setN st.nodes nodeIdx node2 }

/-- `Mesh::subdivideNode` (`Mesh.cpp` 855-932).  Reads the node record
once (the C++ reference stays valid: `buildBVH` reserves capacity `2N`
and at most `2N - 1` nodes are ever created), finds the best SAH split,
keeps the node a leaf when the best cost does not beat the no-split cost,
partitions the node's permutation slice, aborts on an empty side, else
appends the two children, rewrites the parent as internal and recurses. -/
def subdivideNode (m : Mesh) (centro : Array ℚ) :
    ℕ → BVHState → ℕ → BVHState
  | 0, st, _ => st
  | fuel + 1, st, nodeIdx =>
    let node := getN st.nodes nodeIdx default
    if node.triCount ≤ 4 then st
    else
      let extent0 := node.maxBounds.x - node.minBounds.x
      let extent1 := node.maxBounds.y - node.minBounds.y
      let extent2 := node.maxBounds.z - node.minBounds.z
      let best := bestSplit m centro st nodeIdx
      let parentArea := extent0 * extent1 + extent1 * extent2 + extent2 * extent0
      let noSplitCost := (node.triCount : ℚ) * parentArea
      if noSplitCost ≤ best.2.2 then st
      else
        let p := partitionLoop centro best.1 best.2.1 (node.triCount.toNat + 1)
          st.triIdx node.leftFirst (node.leftFirst + node.triCount - 1)
        let leftCount := p.2 - node.leftFirst
        if leftCount = 0 ∨ leftCount = node.triCount then { st with triIdx := p.1 }
        else
          let leftChildIdx := st.nodes.size
          let nodes1 := (st.nodes.push default).push default
          let childL := { (default : BVHNode) with
            leftFirst := node.leftFirst
            triCount := leftCount }
          let childR := { (default : BVHNode) with
            leftFirst := p.2
            triCount := node.triCount - leftCount }
          let parent2 := { node with
            leftFirst := (leftChildIdx : ℤ)
            triCount := 0 }
          let nodes2 := setN nodes1 leftChildIdx childL
          let nodes3 := setN nodes2 (leftChildIdx + 1) childR
          let nodes4 := setN nodes3 nodeIdx parent2
          let st2 := updateNodeBounds m ⟨nodes4, p.1⟩ leftChildIdx
          let st3 := updateNodeBounds m st2 (leftChildIdx + 1)
          let st4 := subdivideNode m centro fuel st3 leftChildIdx
          subdivideNode m centro fuel st4 (leftChildIdx + 1)

/-- `Mesh::buildBVH` (`Mesh.cpp` 715-777): empty triangle set returns
immediately (modelled as the empty state); otherwise initialise the
identity permutation, the centroid cache and the root leaf covering the
whole range, compute its bounds and subdivide recursively. -/
def buildBVH (m : Mesh) : BVHState :=
  if m.triangles.size = 0 then ⟨#[], #[]⟩
  else
    let root : BVHNode := { (default : BVHNode) with
      leftFirst := 0
      triCount := (m.triangles.size : ℤ) }
    let st1 := updateNodeBounds m ⟨#[root], Array.range m.triangles.size⟩ 0
    subdivideNode m (triCentroids m) m.triangles.size st1 0

/-- The specification predicate for the BVH tree shape, by fuel: the
subtree rooted at node `j` covers exactly the permutation range
`[lo, lo + cnt)`.  A leaf stores that range in `(leftFirst, triCount)`;
an internal node has its two children at `leftFirst` / `leftFirst + 1`,
splitting the range contiguously at `lo + c1`.  The extra bound `b`
(every node of the subtree except `j` itself has index `≥ b`) tracks that
descendants are appended after the subtree root existed, which the
correctness induction needs. -/
def CoversF (arr : Array BVHNode) : ℕ → ℕ → ℕ → ℕ → ℕ → Prop
  | 0, _, _, _, _ => False
  | fuel + 1, j, lo, cnt, b =>
    j < arr.size ∧ 1 ≤ cnt ∧
      ((getN arr j default).triCount ≠ 0 ∧
        (getN arr j default).leftFirst = (lo : ℤ) ∧
        (getN arr j default).triCount = (cnt : ℤ) ∨
       (getN arr j default).triCount = 0 ∧
        ∃ lf : ℕ, ∃ c1 : ℕ, (getN arr j default).leftFirst = (lf : ℤ) ∧
          j < lf ∧ b ≤ lf ∧ 1 ≤ c1 ∧ c1 < cnt ∧
          CoversF arr fuel lf lo c1 b ∧
          CoversF arr fuel (lf + 1) (lo + c1) (cnt - c1) b)

/-- The subtree rooted at `j` covers exactly `[lo, lo + cnt)` (some fuel
suffices; the index bound is trivial). -/
def Covers (arr : Array BVHNode) (j lo cnt : ℕ) : Prop :=
  ∃ fuel, CoversF arr fuel j lo cnt 0

/-- The contract of one `subdivideNode` call on a leaf `nodeIdx` covering
`[lo, lo + cnt)`: the node array only grows, other pre-existing nodes are
untouched, the permutation array keeps its size, is permuted, and is
unchanged outside `[lo, lo + cnt)`; afterwards the subtree at `nodeIdx`
covers exactly `[lo, lo + cnt)` and every newly appended node covers a
nonempty subrange of it. -/
def SubdivideSpec (st st' : BVHState) (nodeIdx lo cnt : ℕ) : Prop :=
  st.nodes.size ≤ st'.nodes.size ∧
  (∀ k, k < st.nodes.size → k ≠ nodeIdx →
    getN st'.nodes k default = getN st.nodes k default) ∧
  st'.triIdx.size = st.triIdx.size ∧
  (st'.triIdx.toList).Perm st.triIdx.toList ∧
  (∀ k, k < lo ∨ lo + cnt ≤ k → getN st'.triIdx k 0 = getN st.triIdx k 0) ∧
  (∃ f, CoversF st'.nodes f nodeIdx lo cnt st.nodes.size) ∧
  (∀ j, st.nodes.size ≤ j → j < st'.nodes.size →
    ∃ lo2 cnt2, 1 ≤ cnt2 ∧ lo ≤ lo2 ∧ lo2 + cnt2 ≤ lo + cnt ∧
      ∃ f, CoversF st'.nodes f j lo2 cnt2 st.nodes.size)

/-- A concrete unit-cube-bounds node with 10 triangles, used to exhibit
the SAH candidate count. -/
def unitNode : BVHNode := ⟨⟨0, 0, 0⟩, ⟨1, 1, 1⟩, 0, 10⟩

/-- A concrete degenerate state (five coincident triangles): all axis
extents are zero, so no SAH candidate exists and the best cost stays at
the `1e30` sentinel, which cannot beat the no-split cost 0. -/
def degenerateState : BVHState := ⟨#[⟨⟨0, 0, 0⟩, ⟨0, 0, 0⟩, 0, 5⟩], #[0, 1, 2, 3, 4]⟩

/-- A concrete right-triangle mesh (vertices `(0,0,0)`, `(1,0,0)`,
`(0,1,0)`, one triangle) used as a witness input: its accumulated vertex
normals are `(0,0,-1)`, whose squared length 1 has the exact rational
square root 1. -/
def rightTriMesh : Mesh :=
  { vertices := #[⟨⟨0,0,0⟩, ⟨0,0,0⟩, (0,0)⟩, ⟨⟨1,0,0⟩, ⟨0,0,0⟩, (0,0)⟩,
                  ⟨⟨0,1,0⟩, ⟨0,0,0⟩, (0,0)⟩]
    triangles := #[⟨0, 1, 2, 0⟩]
    materials := #[defaultMaterial] }

/-! ## Mesh simplification: `Mesh::decimate` (`Mesh.cpp` 398-632)

Union-find `findRoot` with path compression recurses along the parent
chain; merges always point the larger root at the smaller
(`if (v1 > v2) std::swap`), so parents strictly decrease and the chain
length is below the vertex count, which the call sites pass as fuel.
`std::priority_queue<..., std::greater<...>>` pops the lexicographically
least `(cost, v1, v2)` tuple; entries comparing equal are identical
tuples, so a sorted list models the pop order exactly.  The collapse loop
gets explicit fuel and reports whether it reached one of its real exit
conditions (`validTriCount ≤ target` or empty queue). -/

/-- Union-find `findRoot` with path compression (`Mesh.cpp` 418-423),
threading the parent array. -/
def findRoot (nv : ℕ) : Array ℕ → ℕ → Array ℕ × ℕ :=
  go nv
where
  /-- Fueled recursion along the parent chain. -/
  go : ℕ → Array ℕ → ℕ → Array ℕ × ℕ
    | 0, par, v => (par, v)
    | fuel + 1, par, v =>
      let p := getN par v v
      if p = v then (par, v)
      else
        let r := go fuel par p
        (setN r.1 v r.2, r.2)

/-- Squared edge length, the collapse cost (`Mesh.cpp` 455-460). -/
def calcEdgeCost (pos : Array Vec3) (v1 v2 : ℕ) : ℚ :=
  let p1 := getN pos v1 default
  let p2 := getN pos v2 default
  (p1.x - p2.x) * (p1.x - p2.x) + (p1.y - p2.y) * (p1.y - p2.y) +
    (p1.z - p2.z) * (p1.z - p2.z)

/-- Lexicographic order on `(cost, v1, v2)` entries, the order by which
`std::priority_queue` with `std::greater` pops `std::tuple`s. -/
def edgeLe (a b : ℚ × ℕ × ℕ) : Bool :=
  if a.1 < b.1 then true
  else if b.1 < a.1 then false
  else if a.2.1 < b.2.1 then true
  else if b.2.1 < a.2.1 then false
  else decide (a.2.2 ≤ b.2.2)

/-- Sorted insertion, modelling a push into the min-priority queue. -/
def pqInsert (e : ℚ × ℕ × ℕ) : List (ℚ × ℕ × ℕ) → List (ℚ × ℕ × ℕ)
  | [] => [e]
  | x :: xs => if edgeLe x e then x :: pqInsert e xs else e :: x :: xs

/-- Undirected edge key (`makeEdgeKey`, `Mesh.cpp` 449-452). -/
def edgeKey (v1 v2 : ℕ) : ℕ × ℕ := if v1 > v2 then (v2, v1) else (v1, v2)

/-- Initial deduplicated edge queue (`Mesh.cpp` 467-481): every edge of
every triangle, first occurrence wins, with its squared length as cost
and its endpoints in triangle order. -/
def buildEdgeQueue (tris : Array Triangle) (pos : Array Vec3) :
    List (ℚ × ℕ × ℕ) :=
  ((List.range tris.size).foldl
    (fun (acc : List (ℕ × ℕ) × List (ℚ × ℕ × ℕ)) ti =>
      let tri := getN tris ti default
      (List.range 3).foldl
        (fun acc2 e =>
          let v1 := tri.idx e
          let v2 := tri.idx ((e + 1) % 3)
          let k := edgeKey v1 v2
          if acc2.1.contains k then acc2
          else (k :: acc2.1, pqInsert (calcEdgeCost pos v1 v2, v1, v2) acc2.2))
        acc)
    ([], [])).2

/-- The collapse loop's mutable state (`Mesh.cpp` 411-486). -/
structure DecState where
  parent : Array ℕ
  positions : Array Vec3
  normals : Array Vec3
  vertexTris : Array (List ℕ)
  triangles : Array Triangle
  valid : Array Bool
  validCount : ℕ
  queue : List (ℚ × ℕ × ℕ)
deriving Repr

/-- Update one affected triangle (`Mesh.cpp` 549-576): skip if already
invalid, remap its indices through `findRoot`, flag it invalid when two
resolved indices coincide (decrementing the valid count), else re-enqueue
its edges that touch the surviving root `v1`. -/
def updateTri (nv v1 : ℕ) (st : DecState) (ti : ℕ) : DecState :=
  if getN st.valid ti false = false then st
  else
    let tri := getN st.triangles ti default
    let r0 := findRoot nv st.parent tri.i0
    let r1 := findRoot nv r0.1 tri.i1
    let r2 := findRoot nv r1.1 tri.i2
    let tri2 : Triangle := ⟨r0.2, r1.2, r2.2, tri.materialIndex⟩
    let st2 := { st with parent := r2.1, triangles := setN st.triangles ti tri2 }
    if tri2.i0 = tri2.i1 ∨ tri2.i1 = tri2.i2 ∨ tri2.i2 = tri2.i0 then
      { st2 with valid := setN st2.valid ti false
                 validCount := st2.validCount - 1 }
    else
      let q := (List.range 3).foldl
        (fun q e =>
          let ev1 := tri2.idx e
          let ev2 := tri2.idx ((e + 1) % 3)
          if ev1 = v1 ∨ ev2 = v1 then
            pqInsert (calcEdgeCost st2.positions ev1 ev2, ev1, ev2) q
          else q)
        st2.queue
      { st2 with queue := q }

/-- The edge-collapse loop (`Mesh.cpp` 488-577): pop the cheapest entry,
resolve its endpoints, skip already-merged pairs, lazily re-insert
entries whose cost grew by more than the factor `2.25`, else collapse
(midpoint position, renormalised summed normal via `sq`, union
`v2 → v1`), merge adjacency lists and update the affected triangles.
Returns whether a real exit condition was reached (fuel never ran out). -/
def decimateLoop (nv : ℕ) (sq : ℚ → ℚ) (target : ℕ) :
    ℕ → DecState → DecState × Bool
  | 0, st => (st, false)
  | fuel + 1, st =>
    if ¬ target < st.validCount then (st, true)
    else
      match st.queue with
      | [] => (st, true)
      | (cost, ov1, ov2) :: rest =>
        let st0 := { st with queue := rest }
        let r1 := findRoot nv st0.parent ov1
        let r2 := findRoot nv r1.1 ov2
        let va := r1.2
        let vb := r2.2
        let st1 := { st0 with parent := r2.1 }
        if va = vb then decimateLoop nv sq target fuel st1
        else
          let v1 := if va > vb then vb else va
          let v2 := if va > vb then va else vb
          let newCost := calcEdgeCost st1.positions v1 v2
          if cost * (9/4) < newCost then
            decimateLoop nv sq target fuel
              { st1 with queue := pqInsert (newCost, v1, v2) st1.queue }
          else
            let p1 := getN st1.positions v1 default
            let p2 := getN st1.positions v2 default
            let mid : Vec3 := ⟨(p1.x + p2.x) * (1/2), (p1.y + p2.y) * (1/2),
              (p1.z + p2.z) * (1/2)⟩
            let n1 := getN st1.normals v1 default
            let n2 := getN st1.normals v2 default
            let nsum : Vec3 := ⟨n1.x + n2.x, n1.y + n2.y, n1.z + n2.z⟩
            let nlen := sq nsum.normSq
            let nnew : Vec3 := if 1/1000000 < nlen then
                ⟨nsum.x / nlen, nsum.y / nlen, nsum.z / nlen⟩
              else nsum
            let st2 := { st1 with
              positions := setN st1.positions v1 mid
              normals := setN st1.normals v1 nnew
              parent := setN st1.parent v2 v1 }
            let affected :=
              ((getN st2.vertexTris v1 []).filter fun ti =>
                getN st2.valid ti false) ++
              ((getN st2.vertexTris v2 []).filter fun ti =>
                getN st2.valid ti false)
            let vt1 := setN st2.vertexTris v1
              (getN st2.vertexTris v1 [] ++ getN st2.vertexTris v2 [])
            let st3 := { st2 with vertexTris := setN vt1 v2 [] }
            let st4 := affected.foldl (updateTri nv v1) st3
            decimateLoop nv sq target fuel st4

/-- Resolve one triangle index during final compaction
(`Mesh.cpp` 593-614): `findRoot`, then look the root up in the
root-to-new-index map, appending a new vertex (collapsed position/normal,
original texture coordinates) on first use. -/
def resolveOne (nv : ℕ) (positions normals : Array Vec3)
    (origVerts : Array Vertex)
    (acc : Array ℕ × List (ℕ × ℕ) × Array Vertex) (idx : ℕ) :
    (Array ℕ × List (ℕ × ℕ) × Array Vertex) × ℕ :=
  let r := findRoot nv acc.1 idx
  let oldIdx := r.2
  match lookupHash acc.2.1 oldIdx with
  | some newIdx => ((r.1, acc.2.1, acc.2.2), newIdx)
  | none =>
      let newIdx := acc.2.2.size
      let v : Vertex := { position := getN positions oldIdx default
                          normal := getN normals oldIdx default
                          texCoord := (getN origVerts oldIdx default).texCoord }
      ((r.1, (oldIdx, newIdx) :: acc.2.1, acc.2.2.push v), newIdx)

/-- The clamped target triangle count (`Mesh.cpp` 401-403): ratio clamped
to `[0.01, 1]`, `floor(count · ratio)` and at least 4. -/
def decimateTarget (n : ℕ) (r : ℚ) : ℕ :=
  max (((n : ℚ) * (max (1/100) (min 1 r))).floor.toNat) 4

/-- One triangle of the final compaction pass (`Mesh.cpp` 587-622): skip
invalid triangles, resolve the three indices through `findRoot` and the
root map, keep the original material index, and drop the triangle if it
is degenerate after final resolution. -/
def compactStep (nv : ℕ) (st : DecState) (origVerts : Array Vertex)
    (acc : Array ℕ × List (ℕ × ℕ) × Array Vertex × Array Triangle) (ti : ℕ) :
    Array ℕ × List (ℕ × ℕ) × Array Vertex × Array Triangle :=
  if getN st.valid ti false = false then acc
  else
    let tri := getN st.triangles ti default
    let a0 := resolveOne nv st.positions st.normals origVerts
      (acc.1, acc.2.1, acc.2.2.1) tri.i0
    let a1 := resolveOne nv st.positions st.normals origVerts a0.1 tri.i1
    let a2 := resolveOne nv st.positions st.normals origVerts a1.1 tri.i2
    let newTri : Triangle := ⟨a0.2, a1.2, a2.2, tri.materialIndex⟩
    if a0.2 ≠ a1.2 ∧ a1.2 ≠ a2.2 ∧ a2.2 ≠ a0.2 then
      (a2.1.1, a2.1.2.1, a2.1.2.2, acc.2.2.2.push newTri)
    else
      (a2.1.1, a2.1.2.1, a2.1.2.2, acc.2.2.2)

/-- The final compaction pass over all original triangle slots. -/
def decimateCompact (nv : ℕ) (st : DecState) (origVerts : Array Vertex)
    (numTriangles : ℕ) :
    Array ℕ × List (ℕ × ℕ) × Array Vertex × Array Triangle :=
  (List.range numTriangles).foldl (compactStep nv st origVerts)
    (st.parent, [], #[], #[])

/-- The non-trivial branch of `Mesh::decimate`: build the union-find,
adjacency lists and edge queue, run the collapse loop, compact, and
recompute normals from scratch. -/
def decimateRun (sq ac : ℚ → ℚ) (loopFuel : ℕ) (m : Mesh) (targetRatio : ℚ) :
    Mesh × Bool :=
  let numTriangles := m.triangles.size
  let numVertices := m.vertices.size
  let vertexTris := (List.range numTriangles).foldl
    (fun vt ti =>
      let tri := getN m.triangles ti default
      let vt1 := setN vt tri.i0 (getN vt tri.i0 [] ++ [ti])
      let vt2 := setN vt1 tri.i1 (getN vt1 tri.i1 [] ++ [ti])
      setN vt2 tri.i2 (getN vt2 tri.i2 [] ++ [ti]))
    (Array.mkArray numVertices [])
  let positions := m.vertices.map (fun v => v.position)
  let normals := m.vertices.map (fun v => v.normal)
  let st0 : DecState :=
    ⟨Array.range numVertices, positions, normals, vertexTris, m.triangles,
     Array.mkArray numTriangles true, numTriangles,
     buildEdgeQueue m.triangles positions⟩
  let r := decimateLoop numVertices sq (decimateTarget numTriangles targetRatio)
    loopFuel st0
  let c := decimateCompact numVertices r.1 m.vertices numTriangles
  let m2 : Mesh := { vertices := c.2.2.1, triangles := c.2.2.2,
                     materials := m.materials }
  (Mesh.computeNormals sq ac m2, r.2)

/-- `Mesh::decimate` (`Mesh.cpp` 398-632).  Early-out on an empty
triangle list or ratio `≥ 1`; otherwise run the collapse loop and the
final compaction, then recompute normals from scratch.  The second
component reports that the collapse loop exited through one of its real
exit conditions (when `false`, the supplied fuel was too small and the
model under-approximates the C++ loop). -/
def Mesh.decimate (sq ac : ℚ → ℚ) (loopFuel : ℕ) (m : Mesh) (targetRatio : ℚ) :
    Mesh × Bool :=
  if m.triangles.size = 0 ∨ 1 ≤ targetRatio then (m, true)
  else decimateRun sq ac loopFuel m targetRatio

/-- A concrete 13-vertex, 5-triangle mesh: triangles 0 and 1 share the
globally cheapest edge (between vertices 1 and 2, squared length 1, all
other edges at least 4), and triangles 2, 3, 4 are three separate far
away triangles. -/
def cex5Mesh : Mesh :=
  { vertices := #[
      ⟨⟨0, 5, 0⟩, ⟨0, 0, 0⟩, (0, 0)⟩,
      ⟨⟨0, 0, 0⟩, ⟨0, 0, 0⟩, (0, 0)⟩,
      ⟨⟨1, 0, 0⟩, ⟨0, 0, 0⟩, (0, 0)⟩,
      ⟨⟨1, -5, 0⟩, ⟨0, 0, 0⟩, (0, 0)⟩,
      ⟨⟨10, 0, 0⟩, ⟨0, 0, 0⟩, (0, 0)⟩,
      ⟨⟨12, 0, 0⟩, ⟨0, 0, 0⟩, (0, 0)⟩,
      ⟨⟨10, 2, 0⟩, ⟨0, 0, 0⟩, (0, 0)⟩,
      ⟨⟨20, 0, 0⟩, ⟨0, 0, 0⟩, (0, 0)⟩,
      ⟨⟨22, 0, 0⟩, ⟨0, 0, 0⟩, (0, 0)⟩,
      ⟨⟨20, 2, 0⟩, ⟨0, 0, 0⟩, (0, 0)⟩,
      ⟨⟨30, 0, 0⟩, ⟨0, 0, 0⟩, (0, 0)⟩,
      ⟨⟨32, 0, 0⟩, ⟨0, 0, 0⟩, (0, 0)⟩,
      ⟨⟨30, 2, 0⟩, ⟨0, 0, 0⟩, (0, 0)⟩]
    triangles := #[⟨0, 1, 2, 0⟩, ⟨1, 3, 2, 0⟩, ⟨4, 5, 6, 0⟩, ⟨7, 8, 9, 0⟩,
      ⟨10, 11, 12, 0⟩]
    materials := #[defaultMaterial] }

-- ===================================================================
-- Theorems
-- ===================================================================

/-- C7: `getMaterial(index)` signals an out-of-range error iff
`index >= m_materials.size()`; otherwise it returns the material stored at
`index`.  The embedding is a pure function of the (const) mesh, so the
mesh state is unchanged in both cases by construction. -/
theorem getMaterial_spec (m : Mesh) (index : ℕ) :
    ((∃ e, m.getMaterial index = .error e) ↔ m.materials.size ≤ index) ∧
    (∀ h : index < m.materials.size,
      m.getMaterial index = .ok (m.materials.get ⟨index, h⟩)) := by
  constructor
  · constructor
    · rintro ⟨e, he⟩
      by_contra hlt
      simp only [Mesh.getMaterial, if_neg hlt] at he
      exact absurd he (by simp)
    · intro hge
      exact ⟨"Material index out of range", by simp [Mesh.getMaterial, hge]⟩
  · intro h
    simp only [Mesh.getMaterial, if_neg (by omega : ¬ m.materials.size ≤ index)]
    congr 1
    simp [getN, Array.getD, h, Array.get_eq_getElem]

/-- Witness for C7: at a concrete one-material mesh, index 0 succeeds with
the stored material and index 1 errors. -/
theorem getMaterial_spec_witness :
    oneMatMesh.getMaterial 0 = .ok defaultMaterial ∧
    ∃ e, oneMatMesh.getMaterial 1 = .error e := by
  constructor
  · have h := (getMaterial_spec oneMatMesh 0).2 (by simp [oneMatMesh])
    simpa [oneMatMesh] using h
  · exact (getMaterial_spec oneMatMesh 1).1.2 (by simp [oneMatMesh])

/-- C5: after `computeNormals`, every vertex normal either has length 1
(in the exact-arithmetic model the squared length is exactly 1, hence the
length is `1.0` well within the claimed `1e-3`), or is exactly the default
`(0, 1, 0)`; the default is installed precisely when the accumulated
normal's length (the value of `sqrt` on its squared norm) does not exceed
`1e-4`.  `sq` is hypothesised to behave as the exact square root on the
accumulated values actually passed to it. -/
theorem computeNormals_unit_or_default (sq ac : ℚ → ℚ) (m : Mesh)
    (hWF : m.WFIndices)
    (hsq : ∀ i, i < (accumNormals sq ac m.triangles m.vertices).size →
      0 ≤ sq (getN (accumNormals sq ac m.triangles m.vertices) i default).normal.normSq ∧
      sq (getN (accumNormals sq ac m.triangles m.vertices) i default).normal.normSq *
        sq (getN (accumNormals sq ac m.triangles m.vertices) i default).normal.normSq =
        (getN (accumNormals sq ac m.triangles m.vertices) i default).normal.normSq) :
    ∀ i, i < (m.computeNormals sq ac).vertices.size →
      (sq (getN (accumNormals sq ac m.triangles m.vertices) i default).normal.normSq
          ≤ 1/10000 →
        (getN (m.computeNormals sq ac).vertices i default).normal = ⟨0, 1, 0⟩) ∧
      (1/10000 <
          sq (getN (accumNormals sq ac m.triangles m.vertices) i default).normal.normSq →
        (getN (m.computeNormals sq ac).vertices i default).normal.normSq = 1) := by
  intro i hi
  have hi' : i < (accumNormals sq ac m.triangles m.vertices).size := by
    simpa [Mesh.computeNormals, normalizePass] using hi
  have hacc : getN (accumNormals sq ac m.triangles m.vertices) i default =
      (accumNormals sq ac m.triangles m.vertices)[i] := by
    simp [getN, Array.getD, hi']
  have hres : getN (m.computeNormals sq ac).vertices i default =
      (let v := (accumNormals sq ac m.triangles m.vertices)[i]
       let len := sq v.normal.normSq
       if 1/10000 < len then
         { v with normal := ⟨v.normal.x / len, v.normal.y / len, v.normal.z / len⟩ }
       else
         { v with normal := ⟨0, 1, 0⟩ }) := by
    simp [Mesh.computeNormals, normalizePass, getN, Array.getD, hi',
      Array.getElem_map]
  rcases le_or_lt
      (sq (getN (accumNormals sq ac m.triangles m.vertices) i default).normal.normSq)
      (1/10000) with hle | hlt
  · refine ⟨fun _ => ?_, fun hgt => absurd hgt (not_lt.mpr hle)⟩
    rw [hres]
    rw [hacc] at hle
    simp only [if_neg (not_lt.mpr hle)]
  · refine ⟨fun hle2 => absurd hlt (not_lt.mpr hle2), fun _ => ?_⟩
    rw [hres]
    rw [hacc] at hlt
    simp only [if_pos hlt]
    obtain ⟨hnn, hsq2⟩ := hsq i hi'
    rw [hacc] at hnn hsq2
    set v := (accumNormals sq ac m.triangles m.vertices)[i] with hv
    set len := sq v.normal.normSq with hlen
    have hlpos : (0:ℚ) < len := lt_trans (by norm_num) hlt
    have hlne : len ≠ 0 := ne_of_gt hlpos
    have hsne : v.normal.normSq ≠ 0 := by
      rw [← hsq2]; exact mul_ne_zero hlne hlne
    show (Vec3.mk (v.normal.x / len) (v.normal.y / len) (v.normal.z / len)).normSq = 1
    unfold Vec3.normSq at *
    field_simp
    linarith [hsq2]

/-- Witness for C5 at the concrete right-triangle mesh with `sq := id`
(the accumulated squared lengths are all 1, where `id` is the exact square
root) and `ac := fun _ => 1`. -/
theorem computeNormals_unit_or_default_witness :
    (Mesh.WFIndices rightTriMesh ∧
      (∀ i, i < (accumNormals id (fun _ => 1) rightTriMesh.triangles
            rightTriMesh.vertices).size →
        0 ≤ id (getN (accumNormals id (fun _ => 1) rightTriMesh.triangles
            rightTriMesh.vertices) i default).normal.normSq ∧
        id (getN (accumNormals id (fun _ => 1) rightTriMesh.triangles
            rightTriMesh.vertices) i default).normal.normSq *
          id (getN (accumNormals id (fun _ => 1) rightTriMesh.triangles
            rightTriMesh.vertices) i default).normal.normSq =
          (getN (accumNormals id (fun _ => 1) rightTriMesh.triangles
            rightTriMesh.vertices) i default).normal.normSq)) ∧
    (∀ i, i < (rightTriMesh.computeNormals id (fun _ => 1)).vertices.size →
      (id (getN (accumNormals id (fun _ => 1) rightTriMesh.triangles
            rightTriMesh.vertices) i default).normal.normSq ≤ 1/10000 →
        (getN (rightTriMesh.computeNormals id (fun _ => 1)).vertices i
            default).normal = ⟨0, 1, 0⟩) ∧
      (1/10000 < id (getN (accumNormals id (fun _ => 1) rightTriMesh.triangles
            rightTriMesh.vertices) i default).normal.normSq →
        (getN (rightTriMesh.computeNormals id (fun _ => 1)).vertices i
            default).normal.normSq = 1)) := by
  have h1 : Mesh.WFIndices rightTriMesh := by with_unfolding_all decide
  have h2 : ∀ i, i < (accumNormals id (fun _ => 1) rightTriMesh.triangles
            rightTriMesh.vertices).size →
      0 ≤ id (getN (accumNormals id (fun _ => 1) rightTriMesh.triangles
          rightTriMesh.vertices) i default).normal.normSq ∧
      id (getN (accumNormals id (fun _ => 1) rightTriMesh.triangles
          rightTriMesh.vertices) i default).normal.normSq *
        id (getN (accumNormals id (fun _ => 1) rightTriMesh.triangles
          rightTriMesh.vertices) i default).normal.normSq =
        (getN (accumNormals id (fun _ => 1) rightTriMesh.triangles
          rightTriMesh.vertices) i default).normal.normSq := by
    with_unfolding_all decide
  exact ⟨⟨h1, h2⟩, computeNormals_unit_or_default id (fun _ => 1) rightTriMesh h1 h2⟩

/-- `setN` preserves the array size. -/
theorem size_setN {α : Type} (a : Array α) (i : ℕ) (v : α) :
    (setN a i v).size = a.size := by
  unfold setN; split <;> simp

/-- One accumulation step preserves the vertex count. -/
theorem size_accumStep (sq ac : ℚ → ℚ) (vs : Array Vertex) (t : Triangle) :
    (accumStep sq ac vs t).size = vs.size := by
  unfold accumStep
  dsimp only
  split
  · rfl
  · simp [size_setN]

/-- Accumulation preserves the vertex count. -/
theorem size_accumNormals (sq ac : ℚ → ℚ) (ts : Array Triangle) (vs : Array Vertex) :
    (accumNormals sq ac ts vs).size = vs.size := by
  unfold accumNormals
  rw [Array.foldl_eq_foldl_toList]
  have h : ∀ (l : List Triangle) (w : Array Vertex),
      (l.foldl (accumStep sq ac) w).size = w.size := by
    intro l
    induction l with
    | nil => intro w; rfl
    | cons t rest ih => intro w; simp [List.foldl_cons, ih, size_accumStep]
  rw [h]
  simp

/-- The final normalisation pass preserves the vertex count. -/
theorem size_normalizePass (sq : ℚ → ℚ) (vs : Array Vertex) :
    (normalizePass sq vs).size = vs.size := by
  simp [normalizePass]

/-- `computeNormals` preserves the vertex count. -/
theorem size_computeNormals (sq ac : ℚ → ℚ) (m : Mesh) :
    (m.computeNormals sq ac).vertices.size = m.vertices.size := by
  simp [Mesh.computeNormals, size_normalizePass, size_accumNormals]

/-- C8: given the external parser succeeds, a face with other than 3
vertices contributes nothing (the load result is the same as without it),
and the load reports success exactly when the welded vertex array is
non-empty. -/
theorem loadModel_skip_and_success (hashF : Vertex → ℕ) (sq ac : ℚ → ℚ)
    (mats : List Material) (fs1 fs2 : List RawFace) (bad : RawFace)
    (hbad : bad.verts.length ≠ 3) :
    loadModel hashF sq ac mats (fs1 ++ bad :: fs2) =
      loadModel hashF sq ac mats (fs1 ++ fs2) ∧
    ((loadModel hashF sq ac mats (fs1 ++ bad :: fs2)).2 = true ↔
      0 < (loadModel hashF sq ac mats (fs1 ++ bad :: fs2)).1.vertices.size) := by
  have hfold : ∀ s : WeldState,
      (fs1 ++ bad :: fs2).foldl (processFace hashF) s =
      (fs1 ++ fs2).foldl (processFace hashF) s := by
    intro s
    rw [List.foldl_append, List.foldl_append, List.foldl_cons]
    simp [processFace, hbad]
  constructor
  · unfold loadModel
    rw [hfold]
  · unfold loadModel
    dsimp only
    set st := (fs1 ++ bad :: fs2).foldl (processFace hashF) ⟨[], #[], #[]⟩ with hst
    have hsize : (if st.verts.toList.any fun v => decide (v.normal.normSq < 1/1000000)
        then Mesh.computeNormals sq ac
          { vertices := st.verts, triangles := st.tris,
            materials := (if mats.isEmpty then
              [{ defaultMaterial with name := "default" }] else mats).toArray }
        else
          { vertices := st.verts, triangles := st.tris,
            materials := (if mats.isEmpty then
              [{ defaultMaterial with name := "default" }] else mats).toArray }
        ).vertices.size = st.verts.size := by
      split
      · rw [size_computeNormals]
      · rfl
    rw [hsize]
    rcases Nat.eq_zero_or_pos st.verts.size with h0 | hpos
    · simp [Array.isEmpty, h0]
    · simp [Array.isEmpty, Nat.pos_iff_ne_zero.mp hpos]
      omega

/-- Witness for C8: the concrete quad face (4 vertices) is skipped between
two triangle faces, and success is reported iff vertices were welded. -/
theorem loadModel_skip_and_success_witness :
    quadFace.verts.length ≠ 3 ∧
    (loadModel (fun _ => 0) id id [] [triFace, quadFace] =
       loadModel (fun _ => 0) id id [] [triFace] ∧
     ((loadModel (fun _ => 0) id id [] [triFace, quadFace]).2 = true ↔
       0 < (loadModel (fun _ => 0) id id [] [triFace, quadFace]).1.vertices.size)) := by
  have hbad : quadFace.verts.length ≠ 3 := by decide
  exact ⟨hbad,
    loadModel_skip_and_success (fun _ => 0) id id [] [triFace] [] quadFace hbad⟩

/-- C3 counterexample: on a node with unit extent on axis 0 (well above
`1e-6`), the builder examines 7 candidate split positions, not 8: the
loop `for (int b = 1; b < NUM_BINS; ++b)` with `NUM_BINS = 8` runs for
`b ∈ {1,…,7}`. -/
theorem sah_candidates_not_eight :
    (1/1000000 : ℚ) < unitNode.maxBounds.nth 0 - unitNode.minBounds.nth 0 ∧
    ¬ (axisCandidates unitNode 0).length = 8 := by
  with_unfolding_all decide

/-- C3 as amended: for each axis whose bounding-box extent exceeds
`1e-6`, the builder evaluates the SAH cost at exactly 7 evenly spaced
candidate positions, `minBounds + extent·b/8` for `b = 1..7` (8 bins give
7 interior bin boundaries); consecutive candidates differ by
`extent / 8`. -/
theorem axisCandidates_spec (node : BVHNode) (axis : ℕ)
    (h : 1/1000000 < node.maxBounds.nth axis - node.minBounds.nth axis) :
    (axisCandidates node axis).length = 7 ∧
    (∀ k, (hk : k < (axisCandidates node axis).length) →
      (axisCandidates node axis).get ⟨k, hk⟩ =
        node.minBounds.nth axis +
          (node.maxBounds.nth axis - node.minBounds.nth axis) * ((k : ℚ) + 1) / 8) ∧
    (∀ k, (hk : k + 1 < (axisCandidates node axis).length) →
      (hk' : k < (axisCandidates node axis).length) →
      (axisCandidates node axis).get ⟨k + 1, hk⟩ -
        (axisCandidates node axis).get ⟨k, hk'⟩ =
        (node.maxBounds.nth axis - node.minBounds.nth axis) / 8) := by
  have hne : ¬ (node.maxBounds.nth axis - node.minBounds.nth axis < 1/1000000) :=
    not_lt.mpr (le_of_lt h)
  have hcand : axisCandidates node axis =
      (List.range' 1 7).map fun (b : ℕ) => node.minBounds.nth axis +
        (node.maxBounds.nth axis - node.minBounds.nth axis) * (b : ℚ) / 8 := by
    unfold axisCandidates
    rw [if_neg hne]
  have hlen : (axisCandidates node axis).length = 7 := by
    rw [hcand]; simp
  have hget : ∀ k, (hk : k < (axisCandidates node axis).length) →
      (axisCandidates node axis).get ⟨k, hk⟩ =
        node.minBounds.nth axis +
          (node.maxBounds.nth axis - node.minBounds.nth axis) * ((k : ℚ) + 1) / 8 := by
    intro k hk
    have hk7 : k < 7 := by rw [hlen] at hk; exact hk
    have hge : (axisCandidates node axis).get ⟨k, hk⟩ =
        (axisCandidates node axis)[k] := rfl
    rw [hge]
    simp only [hcand, List.getElem_map, List.getElem_range'_1]
    push_cast
    ring
  refine ⟨hlen, hget, ?_⟩
  intro k hk hk'
  rw [hget (k + 1) hk, hget k hk']
  push_cast
  ring

/-- Witness for C3's amended statement at the concrete unit node. -/
theorem axisCandidates_spec_witness :
    ((1/1000000 : ℚ) < unitNode.maxBounds.nth 0 - unitNode.minBounds.nth 0) ∧
    ((axisCandidates unitNode 0).length = 7 ∧
    (∀ k, (hk : k < (axisCandidates unitNode 0).length) →
      (axisCandidates unitNode 0).get ⟨k, hk⟩ =
        unitNode.minBounds.nth 0 +
          (unitNode.maxBounds.nth 0 - unitNode.minBounds.nth 0) * ((k : ℚ) + 1) / 8) ∧
    (∀ k, (hk : k + 1 < (axisCandidates unitNode 0).length) →
      (hk' : k < (axisCandidates unitNode 0).length) →
      (axisCandidates unitNode 0).get ⟨k + 1, hk⟩ -
        (axisCandidates unitNode 0).get ⟨k, hk'⟩ =
        (unitNode.maxBounds.nth 0 - unitNode.minBounds.nth 0) / 8)) := by
  have h : (1/1000000 : ℚ) < unitNode.maxBounds.nth 0 - unitNode.minBounds.nth 0 := by
    with_unfolding_all decide
  exact ⟨h, axisCandidates_spec unitNode 0 h⟩

/-- C4: when the best SAH cost does not improve on the no-split cost
`triCount · parentArea` (the parent area proxy computed from the node's
extents), `subdivideNode` returns the state unchanged: the node remains a
leaf and no child nodes are appended, regardless of its triangle count. -/
theorem subdivideNode_no_split (m : Mesh) (centro : Array ℚ) (fuel : ℕ)
    (st : BVHState) (nodeIdx : ℕ)
    (h : ((getN st.nodes nodeIdx default).triCount : ℚ) *
      (((getN st.nodes nodeIdx default).maxBounds.x -
          (getN st.nodes nodeIdx default).minBounds.x) *
        ((getN st.nodes nodeIdx default).maxBounds.y -
          (getN st.nodes nodeIdx default).minBounds.y) +
       ((getN st.nodes nodeIdx default).maxBounds.y -
          (getN st.nodes nodeIdx default).minBounds.y) *
        ((getN st.nodes nodeIdx default).maxBounds.z -
          (getN st.nodes nodeIdx default).minBounds.z) +
       ((getN st.nodes nodeIdx default).maxBounds.z -
          (getN st.nodes nodeIdx default).minBounds.z) *
        ((getN st.nodes nodeIdx default).maxBounds.x -
          (getN st.nodes nodeIdx default).minBounds.x)) ≤
      (bestSplit m centro st nodeIdx).2.2) :
    subdivideNode m centro fuel st nodeIdx = st := by
  cases fuel with
  | zero => rfl
  | succ n =>
    rw [subdivideNode]
    dsimp only
    by_cases h4 : (getN st.nodes nodeIdx default).triCount ≤ 4
    · rw [if_pos h4]
    · rw [if_neg h4]
      split
      · rfl
      · next hcond => exact absurd h hcond

/-- Witness for C4: five coincident triangles give zero extents, no SAH
candidate, sentinel best cost `1e30` and no-split cost 0, so the
5-triangle node stays a leaf. -/
theorem subdivideNode_no_split_witness :
    (((getN degenerateState.nodes 0 default).triCount : ℚ) *
      (((getN degenerateState.nodes 0 default).maxBounds.x -
          (getN degenerateState.nodes 0 default).minBounds.x) *
        ((getN degenerateState.nodes 0 default).maxBounds.y -
          (getN degenerateState.nodes 0 default).minBounds.y) +
       ((getN degenerateState.nodes 0 default).maxBounds.y -
          (getN degenerateState.nodes 0 default).minBounds.y) *
        ((getN degenerateState.nodes 0 default).maxBounds.z -
          (getN degenerateState.nodes 0 default).minBounds.z) +
       ((getN degenerateState.nodes 0 default).maxBounds.z -
          (getN degenerateState.nodes 0 default).minBounds.z) *
        ((getN degenerateState.nodes 0 default).maxBounds.x -
          (getN degenerateState.nodes 0 default).minBounds.x)) ≤
      (bestSplit oneMatMesh #[] degenerateState 0).2.2) ∧
    subdivideNode oneMatMesh #[] 7 degenerateState 0 = degenerateState := by
  have h : ((getN degenerateState.nodes 0 default).triCount : ℚ) *
      (((getN degenerateState.nodes 0 default).maxBounds.x -
          (getN degenerateState.nodes 0 default).minBounds.x) *
        ((getN degenerateState.nodes 0 default).maxBounds.y -
          (getN degenerateState.nodes 0 default).minBounds.y) +
       ((getN degenerateState.nodes 0 default).maxBounds.y -
          (getN degenerateState.nodes 0 default).minBounds.y) *
        ((getN degenerateState.nodes 0 default).maxBounds.z -
          (getN degenerateState.nodes 0 default).minBounds.z) +
       ((getN degenerateState.nodes 0 default).maxBounds.z -
          (getN degenerateState.nodes 0 default).minBounds.z) *
        ((getN degenerateState.nodes 0 default).maxBounds.x -
          (getN degenerateState.nodes 0 default).minBounds.x)) ≤
      (bestSplit oneMatMesh #[] degenerateState 0).2.2 := by
    with_unfolding_all decide
  exact ⟨h, subdivideNode_no_split oneMatMesh #[] 7 degenerateState 0 h⟩

/-- `getN` after `setN` at the written index. -/
theorem getN_setN_eq {α : Type} (a : Array α) (i : ℕ) (v d : α) (h : i < a.size) :
    getN (setN a i v) i d = v := by
  simp [getN, setN, h, Array.getD, Array.getElem_set]

/-- `getN` after `setN` at a different index. -/
theorem getN_setN_ne {α : Type} (a : Array α) (i j : ℕ) (v d : α) (h : i ≠ j) :
    getN (setN a i v) j d = getN a j d := by
  unfold getN setN
  split
  · next hi =>
    simp only [Array.getD, Array.size_set]
    split
    · next hj => simp [Array.getElem_set, h]
    · rfl
  · rfl

/-- `getN` is the in-bounds element. -/
theorem getN_eq_getElem {α : Type} (a : Array α) (i : ℕ) (d : α) (h : i < a.size) :
    getN a i d = a[i] := by
  simp [getN, Array.getD, h]

/-- `getN` after `push`, below the old size. -/
theorem getN_push_lt {α : Type} (a : Array α) (v d : α) (i : ℕ) (h : i < a.size) :
    getN (a.push v) i d = getN a i d := by
  have h' : i < (a.push v).size := by simp [Array.size_push]; omega
  rw [getN_eq_getElem _ _ _ h', getN_eq_getElem _ _ _ h]
  exact Array.getElem_push_lt a v i h

/-- `getN` after `push`, at the old size. -/
theorem getN_push_eq {α : Type} (a : Array α) (v d : α) :
    getN (a.push v) a.size d = v := by
  have h' : a.size < (a.push v).size := by simp [Array.size_push]
  rw [getN_eq_getElem _ _ _ h']
  exact Array.getElem_push_eq a v

/-- `swapN` preserves the size. -/
theorem size_swapN {α : Type} (a : Array α) (i j : ℕ) :
    (swapN a i j).size = a.size := by
  unfold swapN
  split
  · simp [Array.size_swap]
  · rfl

/-- `swapN` leaves all other positions unchanged. -/
theorem getN_swapN_ne {α : Type} (a : Array α) (i j k : ℕ) (d : α)
    (hki : k ≠ i) (hkj : k ≠ j) : getN (swapN a i j) k d = getN a k d := by
  unfold swapN
  split
  · next hb =>
    unfold getN
    simp only [Array.getD, Array.size_swap]
    split
    · next hk => simp [Array.getElem_swap, hki, hkj]
    · rfl
  · rfl

/-- Value of an `Eq.rec`-transported `Fin` index. -/
theorem coe_eqRec_fin : ∀ (n m : ℕ) (h : n = m) (j : Fin n),
    (((h ▸ j) : Fin m) : ℕ) = (j : ℕ) := by
  intro n m h j
  subst h
  rfl

/-- Prepending an element written into position `k` is a permutation of
prepending the overwritten element. -/
theorem cons_set_perm : ∀ (t : List ℕ) (k : ℕ) (hk : k < t.length) (a : ℕ),
    (t.get ⟨k, hk⟩ :: t.set k a).Perm (a :: t) := by
  intro t
  induction t with
  | nil => intro k hk; exact absurd hk (by simp)
  | cons b s ih =>
    intro k hk a
    cases k with
    | zero => simpa using List.Perm.swap a b s
    | succ k' =>
      have hk' : k' < s.length := by simpa using hk
      exact (List.Perm.swap b (s.get ⟨k', hk'⟩) (s.set k' a)).trans
        ((List.Perm.cons b (ih k' hk' a)).trans (List.Perm.swap a b s))

/-- The two-`set` form of a transposition is a permutation. -/
theorem set_set_perm : ∀ (l : List ℕ) (i j : ℕ) (hi : i < l.length)
    (hj : j < l.length),
    ((l.set i (l.get ⟨j, hj⟩)).set j (l.get ⟨i, hi⟩)).Perm l := by
  intro l
  induction l with
  | nil => intro i j hi; exact absurd hi (by simp)
  | cons b s ih =>
    intro i j hi hj
    cases i with
    | zero =>
      cases j with
      | zero => simp
      | succ j' =>
        have hj' : j' < s.length := by simpa using hj
        simpa using cons_set_perm s j' hj' b
    | succ i' =>
      have hi' : i' < s.length := by simpa using hi
      cases j with
      | zero =>
        have h1 : ((b :: s).set (i' + 1) ((b :: s).get ⟨0, hj⟩)).set 0
            ((b :: s).get ⟨i' + 1, hi⟩) = s.get ⟨i', hi'⟩ :: s.set i' b := by
          simp only [List.get_eq_getElem, List.getElem_cons_zero,
            List.getElem_cons_succ, List.set_cons_succ, List.set_cons_zero]
        rw [h1]
        exact cons_set_perm s i' hi' b
      | succ j' =>
        have hj' : j' < s.length := by simpa using hj
        have h1 : ((b :: s).set (i' + 1) ((b :: s).get ⟨j' + 1, hj⟩)).set (j' + 1)
            ((b :: s).get ⟨i' + 1, hi⟩) =
            b :: ((s.set i' (s.get ⟨j', hj'⟩)).set j' (s.get ⟨i', hi'⟩)) := by
          simp only [List.get_eq_getElem, List.getElem_cons_succ,
            List.set_cons_succ]
        rw [h1]
        exact List.Perm.cons b (ih i' j' hi' hj')

/-- `swapN` permutes the underlying list. -/
theorem swapN_perm (a : Array ℕ) (i j : ℕ) :
    ((swapN a i j).toList).Perm a.toList := by
  unfold swapN
  split
  · next hb =>
    have h1 : (a.swap ⟨i, hb.1⟩ ⟨j, hb.2⟩).toList =
        (a.toList.set i (a.get ⟨j, hb.2⟩)).set j (a.get ⟨i, hb.1⟩) := by
      show ((a.set ⟨i, hb.1⟩ (a.get ⟨j, hb.2⟩)).set _ (a.get ⟨i, hb.1⟩)).toList = _
      rw [Array.toList_set, Array.toList_set]
      congr 1
      exact coe_eqRec_fin _ _ _ _
    rw [h1]
    have hi : i < a.toList.length := by simpa using hb.1
    have hj : j < a.toList.length := by simpa using hb.2
    have hgi : a.get ⟨i, hb.1⟩ = a.toList.get ⟨i, hi⟩ := by
      rw [Array.get_eq_getElem, List.get_eq_getElem]
      exact Array.getElem_eq_getElem_toList _
    have hgj : a.get ⟨j, hb.2⟩ = a.toList.get ⟨j, hj⟩ := by
      rw [Array.get_eq_getElem, List.get_eq_getElem]
      exact Array.getElem_eq_getElem_toList _
    rw [hgi, hgj]
    exact set_set_perm a.toList i j hi hj
  · exact List.Perm.refl _

/-- `CoversF` is monotone in the fuel. -/
theorem CoversF_mono_fuel : ∀ (f : ℕ), ∀ (f' : ℕ), f ≤ f' →
    ∀ (arr : Array BVHNode) (j lo cnt b : ℕ),
    CoversF arr f j lo cnt b → CoversF arr f' j lo cnt b := by
  intro f
  induction f with
  | zero => intro f' _ arr j lo cnt b h; exact h.elim
  | succ n ih =>
    intro f' hf arr j lo cnt b h
    obtain ⟨f'', rfl⟩ : ∃ k, f' = k + 1 := ⟨f' - 1, by omega⟩
    obtain ⟨hj, hcnt, hc⟩ := h
    refine ⟨hj, hcnt, ?_⟩
    rcases hc with hleaf | ⟨hint, lf, c1, hlf, hjlf, hblf, hc1, hc1cnt, hL, hR⟩
    · exact Or.inl hleaf
    · exact Or.inr ⟨hint, lf, c1, hlf, hjlf, hblf, hc1, hc1cnt,
        ih f'' (by omega) _ _ _ _ _ hL, ih f'' (by omega) _ _ _ _ _ hR⟩

/-- `CoversF` is antitone in the descendant-index bound. -/
theorem CoversF_mono_b : ∀ (f : ℕ) (arr : Array BVHNode) (j lo cnt b b' : ℕ),
    b' ≤ b → CoversF arr f j lo cnt b → CoversF arr f j lo cnt b' := by
  intro f
  induction f with
  | zero => intro arr j lo cnt b b' _ h; exact h.elim
  | succ n ih =>
    intro arr j lo cnt b b' hb h
    obtain ⟨hj, hcnt, hc⟩ := h
    refine ⟨hj, hcnt, ?_⟩
    rcases hc with hleaf | ⟨hint, lf, c1, hlf, hjlf, hblf, hc1, hc1cnt, hL, hR⟩
    · exact Or.inl hleaf
    · exact Or.inr ⟨hint, lf, c1, hlf, hjlf, by omega, hc1, hc1cnt,
        ih _ _ _ _ _ _ hb hL, ih _ _ _ _ _ _ hb hR⟩

/-- `CoversF` transports along array modifications that leave every index
except one index `v` below the bound `b` unchanged: since every node of
the subtree except its root has index `≥ b > v`, and the root is not `v`,
the recursion never reads index `v`. -/
theorem CoversF_congr : ∀ (f : ℕ) (arr arr2 : Array BVHNode) (v : ℕ),
    arr.size ≤ arr2.size →
    (∀ k, k < arr.size → k ≠ v → getN arr2 k default = getN arr k default) →
    ∀ (j lo cnt b : ℕ), v < b → j ≠ v →
    CoversF arr f j lo cnt b → CoversF arr2 f j lo cnt b := by
  intro f
  induction f with
  | zero => intro arr arr2 v _ _ j lo cnt b _ _ h; exact h.elim
  | succ n ih =>
    intro arr arr2 v hsz hframe j lo cnt b hvb hjv h
    obtain ⟨hj, hcnt, hc⟩ := h
    have hrec : getN arr2 j default = getN arr j default := hframe j hj hjv
    refine ⟨lt_of_lt_of_le hj hsz, hcnt, ?_⟩
    rcases hc with ⟨h1, h2, h3⟩ | ⟨hint, lf, c1, hlf, hjlf, hblf, hc1, hc1cnt, hL, hR⟩
    · exact Or.inl ⟨by rw [hrec]; exact h1, by rw [hrec]; exact h2,
        by rw [hrec]; exact h3⟩
    · refine Or.inr ⟨by rw [hrec]; exact hint, lf, c1, by rw [hrec]; exact hlf,
        hjlf, hblf, hc1, hc1cnt, ?_, ?_⟩
      · exact ih arr arr2 v hsz hframe lf lo c1 b hvb (by omega) hL
      · exact ih arr arr2 v hsz hframe (lf + 1) (lo + c1) (cnt - c1) b hvb
          (by omega) hR

/-- `updateNodeBounds` preserves the node-array size. -/
theorem updateNodeBounds_size (m : Mesh) (st : BVHState) (k : ℕ) :
    (updateNodeBounds m st k).nodes.size = st.nodes.size := by
  simp [updateNodeBounds, size_setN]

/-- `updateNodeBounds` does not touch the permutation array. -/
theorem updateNodeBounds_triIdx (m : Mesh) (st : BVHState) (k : ℕ) :
    (updateNodeBounds m st k).triIdx = st.triIdx := rfl

/-- `updateNodeBounds` leaves other node records unchanged. -/
theorem updateNodeBounds_frame (m : Mesh) (st : BVHState) (k j : ℕ) (h : j ≠ k) :
    getN (updateNodeBounds m st k).nodes j default = getN st.nodes j default := by
  unfold updateNodeBounds
  exact getN_setN_ne _ _ _ _ _ (fun hkj => h hkj.symm)

/-- `updateNodeBounds` preserves `leftFirst` and `triCount` everywhere
(at the target node only the bounds change). -/
theorem updateNodeBounds_fields (m : Mesh) (st : BVHState) (k j : ℕ) :
    (getN (updateNodeBounds m st k).nodes j default).leftFirst =
      (getN st.nodes j default).leftFirst ∧
    (getN (updateNodeBounds m st k).nodes j default).triCount =
      (getN st.nodes j default).triCount := by
  by_cases hjk : j = k
  · subst hjk
    by_cases hk : j < st.nodes.size
    · unfold updateNodeBounds
      dsimp only
      rw [getN_setN_eq _ _ _ _ hk]
      exact ⟨rfl, rfl⟩
    · unfold updateNodeBounds
      dsimp only
      have hset : ∀ v : BVHNode, setN st.nodes j v = st.nodes := by
        intro v; unfold setN; rw [dif_neg hk]
      rw [hset]
      exact ⟨rfl, rfl⟩
  · rw [updateNodeBounds_frame m st k j hjk]
    exact ⟨rfl, rfl⟩

/-- Behaviour of the partition loop (`Mesh.cpp` 896-908) on the window
`[i, j]`: with enough fuel it preserves the array size, permutes the
contents, leaves everything outside the window unchanged, and returns a
split point in `[i, j + 1]`. -/
theorem partitionLoop_spec (centro : Array ℚ) (axis : ℕ) (pos : ℚ) :
    ∀ (fuel : ℕ) (arr : Array ℕ) (i j : ℤ),
    0 ≤ i → i ≤ j + 1 → (j + 1 - i).toNat < fuel →
    ((partitionLoop centro axis pos fuel arr i j).1.size = arr.size ∧
     ((partitionLoop centro axis pos fuel arr i j).1.toList).Perm arr.toList ∧
     (∀ k : ℕ, ((k : ℤ) < i ∨ j < (k : ℤ)) →
        getN (partitionLoop centro axis pos fuel arr i j).1 k 0 = getN arr k 0) ∧
     i ≤ (partitionLoop centro axis pos fuel arr i j).2 ∧
     (partitionLoop centro axis pos fuel arr i j).2 ≤ j + 1) := by
  intro fuel
  induction fuel with
  | zero => intro arr i j h0 hij hf; omega
  | succ n ih =>
    intro arr i j h0 hij hf
    by_cases hle : i ≤ j
    · by_cases hc : getN centro (getN arr i.toNat 0 * 3 + axis) 0 < pos
      · have hstep : partitionLoop centro axis pos (n + 1) arr i j =
            partitionLoop centro axis pos n arr (i + 1) j := by
          simp only [partitionLoop, if_pos hle, if_pos hc]
        rw [hstep]
        obtain ⟨s1, s2, s3, s4, s5⟩ := ih arr (i + 1) j (by omega) (by omega)
          (by omega)
        exact ⟨s1, s2, fun k hk => s3 k (by omega), by omega, s5⟩
      · have hstep : partitionLoop centro axis pos (n + 1) arr i j =
            partitionLoop centro axis pos n (swapN arr i.toNat j.toNat) i
              (j - 1) := by
          simp only [partitionLoop, if_pos hle, if_neg hc]
        rw [hstep]
        obtain ⟨s1, s2, s3, s4, s5⟩ := ih (swapN arr i.toNat j.toNat) i (j - 1)
          (by omega) (by omega) (by omega)
        refine ⟨by rw [s1, size_swapN], s2.trans (swapN_perm _ _ _), ?_,
          s4, by omega⟩
        intro k hk
        rw [s3 k (by omega)]
        exact getN_swapN_ne _ _ _ _ _ (by omega) (by omega)
    · have hstep : partitionLoop centro axis pos (n + 1) arr i j = (arr, i) := by
        simp only [partitionLoop, if_neg hle]
      rw [hstep]
      exact ⟨rfl, List.Perm.refl _, fun k _ => rfl, le_refl _, by omega⟩

/-- `subdivideNode` on a node with at most 4 triangles returns the state
unchanged (`Mesh.cpp` 859). -/
theorem subdivideNode_eq_of_small (m : Mesh) (centro : Array ℚ) (fuel : ℕ)
    (st : BVHState) (nodeIdx : ℕ)
    (hA : (getN st.nodes nodeIdx default).triCount ≤ 4) :
    subdivideNode m centro fuel st nodeIdx = st := by
  cases fuel with
  | zero => rfl
  | succ n =>
    rw [subdivideNode]
    dsimp only
    rw [if_pos hA]

/-- `subdivideNode` when the best SAH cost does not beat the no-split
cost returns the state unchanged (`Mesh.cpp` 889-893). -/
theorem subdivideNode_eq_of_noSplit (m : Mesh) (centro : Array ℚ) (fuel : ℕ)
    (st : BVHState) (nodeIdx : ℕ)
    (node : BVHNode) (hnode : node = getN st.nodes nodeIdx default)
    (hB : (node.triCount : ℚ) *
      ((node.maxBounds.x - node.minBounds.x) * (node.maxBounds.y - node.minBounds.y) +
       (node.maxBounds.y - node.minBounds.y) * (node.maxBounds.z - node.minBounds.z) +
       (node.maxBounds.z - node.minBounds.z) * (node.maxBounds.x - node.minBounds.x)) ≤
      (bestSplit m centro st nodeIdx).2.2) :
    subdivideNode m centro fuel st nodeIdx = st := by
  subst hnode
  cases fuel with
  | zero => rfl
  | succ n =>
    rw [subdivideNode]
    dsimp only
    by_cases hA : (getN st.nodes nodeIdx default).triCount ≤ 4
    · rw [if_pos hA]
    · rw [if_neg hA, if_pos hB]

/-- `subdivideNode` when the partition produced an empty side keeps the
node a leaf, with the (partially rearranged) permutation array
(`Mesh.cpp` 910-911). -/
theorem subdivideNode_eq_of_guard (m : Mesh) (centro : Array ℚ) (n : ℕ)
    (st : BVHState) (nodeIdx : ℕ)
    (node : BVHNode) (hnode : node = getN st.nodes nodeIdx default)
    (hA : ¬ node.triCount ≤ 4)
    (hB : ¬ ((node.triCount : ℚ) *
      ((node.maxBounds.x - node.minBounds.x) * (node.maxBounds.y - node.minBounds.y) +
       (node.maxBounds.y - node.minBounds.y) * (node.maxBounds.z - node.minBounds.z) +
       (node.maxBounds.z - node.minBounds.z) * (node.maxBounds.x - node.minBounds.x)) ≤
      (bestSplit m centro st nodeIdx).2.2))
    (p : Array ℕ × ℤ)
    (hp : p = partitionLoop centro (bestSplit m centro st nodeIdx).1
      (bestSplit m centro st nodeIdx).2.1 (node.triCount.toNat + 1) st.triIdx
      node.leftFirst (node.leftFirst + node.triCount - 1))
    (hC : p.2 - node.leftFirst = 0 ∨ p.2 - node.leftFirst = node.triCount) :
    subdivideNode m centro (n + 1) st nodeIdx = ⟨st.nodes, p.1⟩ := by
  subst hnode
  subst hp
  rw [subdivideNode]
  dsimp only
  rw [if_neg hA, if_neg hB, if_pos hC]

/-- `subdivideNode` on a genuine split: append the two children, convert
the node, update the children's bounds and recurse (`Mesh.cpp` 913-931). -/
theorem subdivideNode_eq_of_split (m : Mesh) (centro : Array ℚ) (n : ℕ)
    (st : BVHState) (nodeIdx : ℕ)
    (node : BVHNode) (hnode : node = getN st.nodes nodeIdx default)
    (hA : ¬ node.triCount ≤ 4)
    (hB : ¬ ((node.triCount : ℚ) *
      ((node.maxBounds.x - node.minBounds.x) * (node.maxBounds.y - node.minBounds.y) +
       (node.maxBounds.y - node.minBounds.y) * (node.maxBounds.z - node.minBounds.z) +
       (node.maxBounds.z - node.minBounds.z) * (node.maxBounds.x - node.minBounds.x)) ≤
      (bestSplit m centro st nodeIdx).2.2))
    (p : Array ℕ × ℤ)
    (hp : p = partitionLoop centro (bestSplit m centro st nodeIdx).1
      (bestSplit m centro st nodeIdx).2.1 (node.triCount.toNat + 1) st.triIdx
      node.leftFirst (node.leftFirst + node.triCount - 1))
    (hC : ¬ (p.2 - node.leftFirst = 0 ∨ p.2 - node.leftFirst = node.triCount)) :
    subdivideNode m centro (n + 1) st nodeIdx =
      subdivideNode m centro n
        (subdivideNode m centro n
          (updateNodeBounds m
            (updateNodeBounds m
              ⟨setN (setN (setN ((st.nodes.push default).push default)
                  st.nodes.size
                  { (default : BVHNode) with
                    leftFirst := node.leftFirst
                    triCount := p.2 - node.leftFirst })
                (st.nodes.size + 1)
                { (default : BVHNode) with
                  leftFirst := p.2
                  triCount := node.triCount - (p.2 - node.leftFirst) })
                nodeIdx
                { node with
                  leftFirst := (st.nodes.size : ℤ)
                  triCount := 0 }, p.1⟩
              st.nodes.size)
            (st.nodes.size + 1))
          st.nodes.size)
        (st.nodes.size + 1) := by
  subst hnode
  subst hp
  rw [subdivideNode]
  dsimp only
  rw [if_neg hA, if_neg hB, if_neg hC]

/-- A state satisfies the subdivision contract relative to itself when
the node is a leaf covering `[lo, lo + cnt)`. -/
theorem SubdivideSpec_refl (st : BVHState) (nodeIdx lo cnt : ℕ)
    (h1 : nodeIdx < st.nodes.size)
    (h2 : (getN st.nodes nodeIdx default).leftFirst = (lo : ℤ))
    (h3 : (getN st.nodes nodeIdx default).triCount = (cnt : ℤ))
    (h4 : 1 ≤ cnt) :
    SubdivideSpec st st nodeIdx lo cnt := by
  unfold SubdivideSpec
  refine ⟨le_refl _, fun k _ _ => rfl, rfl, List.Perm.refl _, fun k _ => rfl,
    ⟨1, h1, h4, Or.inl ⟨?_, h2, h3⟩⟩, fun j hj hj2 => absurd hj (not_le.mpr hj2)⟩
  rw [h3]
  omega

set_option maxHeartbeats 2000000 in
/-- The split path of `subdivideNode` satisfies the subdivision contract:
given the partitioned permutation array `tIdx` and a split of the range
`[lo, lo + cnt)` at `lo + c1` with both sides nonempty, appending the two
children, converting the parent and recursing (with the recursive calls
assumed to satisfy the contract) satisfies the contract. -/
theorem subdivide_split_assemble (m : Mesh) (centro : Array ℚ) (n : ℕ)
    (st : BVHState) (nodeIdx lo cnt c1 : ℕ) (tIdx : Array ℕ)
    (h1 : nodeIdx < st.nodes.size)
    (h4 : 1 ≤ cnt) (h5 : lo + cnt ≤ st.triIdx.size)
    (hc1pos : 1 ≤ c1) (hc1lt : c1 < cnt)
    (hTsize : tIdx.size = st.triIdx.size)
    (hTperm : tIdx.toList.Perm st.triIdx.toList)
    (hTframe : ∀ k, k < lo ∨ lo + cnt ≤ k → getN tIdx k 0 = getN st.triIdx k 0)
    (ih : ∀ (st2 : BVHState) (nodeIdx2 lo2 cnt2 : ℕ), nodeIdx2 < st2.nodes.size →
      (getN st2.nodes nodeIdx2 default).leftFirst = (lo2 : ℤ) →
      (getN st2.nodes nodeIdx2 default).triCount = (cnt2 : ℤ) →
      1 ≤ cnt2 → lo2 + cnt2 ≤ st2.triIdx.size →
      SubdivideSpec st2 (subdivideNode m centro n st2 nodeIdx2) nodeIdx2 lo2 cnt2) :
    SubdivideSpec st (subdivideNode m centro n (subdivideNode m centro n
      (updateNodeBounds m (updateNodeBounds m
        ⟨setN (setN (setN ((st.nodes.push default).push default) st.nodes.size
            { (default : BVHNode) with leftFirst := (lo : ℤ), triCount := (c1 : ℤ) })
          (st.nodes.size + 1)
          { (default : BVHNode) with
            leftFirst := ((lo + c1 : ℕ) : ℤ)
            triCount := ((cnt - c1 : ℕ) : ℤ) })
          nodeIdx
          { getN st.nodes nodeIdx default with
            leftFirst := (st.nodes.size : ℤ)
            triCount := 0 }, tIdx⟩
        st.nodes.size) (st.nodes.size + 1)) st.nodes.size) (st.nodes.size + 1))
      nodeIdx lo cnt := by
  set L := st.nodes.size with hLdef
  set childL : BVHNode :=
    { (default : BVHNode) with leftFirst := (lo : ℤ), triCount := (c1 : ℤ) }
    with hchildL
  set childR : BVHNode :=
    { (default : BVHNode) with
      leftFirst := ((lo + c1 : ℕ) : ℤ)
      triCount := ((cnt - c1 : ℕ) : ℤ) } with hchildR
  set parent2 : BVHNode :=
    { getN st.nodes nodeIdx default with
      leftFirst := (L : ℤ)
      triCount := 0 } with hparent2
  set nodes4 := setN (setN (setN ((st.nodes.push default).push default) L childL)
    (L + 1) childR) nodeIdx parent2 with hnodes4
  set st3 := updateNodeBounds m (updateNodeBounds m ⟨nodes4, tIdx⟩ L) (L + 1)
    with hst3
  set st4 := subdivideNode m centro n st3 L with hst4
  set st5 := subdivideNode m centro n st4 (L + 1) with hst5
  have hnIdxL : nodeIdx < L := h1
  have hn4size : nodes4.size = L + 2 := by
    rw [hnodes4, size_setN, size_setN, size_setN, Array.size_push,
      Array.size_push]
  have hn4L : getN nodes4 L default = childL := by
    rw [hnodes4, getN_setN_ne _ _ _ _ _ (by omega : nodeIdx ≠ L),
      getN_setN_ne _ _ _ _ _ (by omega : L + 1 ≠ L),
      getN_setN_eq _ _ _ _ (by rw [Array.size_push, Array.size_push]; omega)]
  have hn4R : getN nodes4 (L + 1) default = childR := by
    rw [hnodes4, getN_setN_ne _ _ _ _ _ (by omega : nodeIdx ≠ L + 1),
      getN_setN_eq _ _ _ _
        (by rw [size_setN, Array.size_push, Array.size_push]; omega)]
  have hn4parent : getN nodes4 nodeIdx default = parent2 := by
    rw [hnodes4, getN_setN_eq _ _ _ _
      (by rw [size_setN, size_setN, Array.size_push, Array.size_push]; omega)]
  have hn4frame : ∀ k, k < L → k ≠ nodeIdx →
      getN nodes4 k default = getN st.nodes k default := by
    intro k hk hkni
    rw [hnodes4, getN_setN_ne _ _ _ _ _ (fun h => hkni h.symm),
      getN_setN_ne _ _ _ _ _ (by omega : L + 1 ≠ k),
      getN_setN_ne _ _ _ _ _ (by omega : L ≠ k),
      getN_push_lt _ _ _ _ (by rw [Array.size_push]; omega),
      getN_push_lt _ _ _ _ (by omega)]
  have hst3size : st3.nodes.size = L + 2 := by
    rw [hst3, updateNodeBounds_size, updateNodeBounds_size]
    exact hn4size
  have hst3tri : st3.triIdx = tIdx := by
    rw [hst3, updateNodeBounds_triIdx, updateNodeBounds_triIdx]
  have hst3Lfields : (getN st3.nodes L default).leftFirst = (lo : ℤ) ∧
      (getN st3.nodes L default).triCount = (c1 : ℤ) := by
    have f1 := updateNodeBounds_fields m (updateNodeBounds m ⟨nodes4, tIdx⟩ L)
      (L + 1) L
    have f2 := updateNodeBounds_fields m ⟨nodes4, tIdx⟩ L L
    rw [hst3]
    constructor
    · rw [f1.1, f2.1]
      show (getN nodes4 L default).leftFirst = (lo : ℤ)
      rw [hn4L, hchildL]
    · rw [f1.2, f2.2]
      show (getN nodes4 L default).triCount = (c1 : ℤ)
      rw [hn4L, hchildL]
  have hst3Rfields : (getN st3.nodes (L + 1) default).leftFirst =
      ((lo + c1 : ℕ) : ℤ) ∧
      (getN st3.nodes (L + 1) default).triCount = ((cnt - c1 : ℕ) : ℤ) := by
    have f1 := updateNodeBounds_fields m (updateNodeBounds m ⟨nodes4, tIdx⟩ L)
      (L + 1) (L + 1)
    have f2 := updateNodeBounds_fields m ⟨nodes4, tIdx⟩ L (L + 1)
    rw [hst3]
    constructor
    · rw [f1.1, f2.1]
      show (getN nodes4 (L + 1) default).leftFirst = ((lo + c1 : ℕ) : ℤ)
      rw [hn4R, hchildR]
    · rw [f1.2, f2.2]
      show (getN nodes4 (L + 1) default).triCount = ((cnt - c1 : ℕ) : ℤ)
      rw [hn4R, hchildR]
  have hst3parent : getN st3.nodes nodeIdx default = parent2 := by
    rw [hst3, updateNodeBounds_frame _ _ _ _ (by omega : nodeIdx ≠ L + 1),
      updateNodeBounds_frame _ _ _ _ (by omega : nodeIdx ≠ L)]
    exact hn4parent
  have hst3frame : ∀ k, k < L → k ≠ nodeIdx →
      getN st3.nodes k default = getN st.nodes k default := by
    intro k hk hkni
    rw [hst3, updateNodeBounds_frame _ _ _ _ (by omega : k ≠ L + 1),
      updateNodeBounds_frame _ _ _ _ (by omega : k ≠ L)]
    exact hn4frame k hk hkni
  have specL := ih st3 L lo c1 (by omega) hst3Lfields.1 hst3Lfields.2 hc1pos
    (by rw [hst3tri, hTsize]; omega)
  rw [← hst4] at specL
  unfold SubdivideSpec at specL
  obtain ⟨A4, B4, T4size, T4perm, T4frame, D4, E4⟩ := specL
  have hst4Rfields : (getN st4.nodes (L + 1) default).leftFirst =
      ((lo + c1 : ℕ) : ℤ) ∧
      (getN st4.nodes (L + 1) default).triCount = ((cnt - c1 : ℕ) : ℤ) := by
    rw [B4 (L + 1) (by omega) (by omega)]
    exact hst3Rfields
  have specR := ih st4 (L + 1) (lo + c1) (cnt - c1) (by omega)
    hst4Rfields.1 hst4Rfields.2 (by omega)
    (by rw [T4size, hst3tri, hTsize]; omega)
  rw [← hst5] at specR
  unfold SubdivideSpec at specR
  obtain ⟨A5, B5, T5size, T5perm, T5frame, D5, E5⟩ := specR
  have hst4size : L + 2 ≤ st4.nodes.size := by omega
  have hparent5 : getN st5.nodes nodeIdx default = parent2 := by
    rw [B5 nodeIdx (by omega) (by omega), B4 nodeIdx (by omega) (by omega)]
    exact hst3parent
  unfold SubdivideSpec
  refine ⟨by omega, ?_, ?_, ?_, ?_, ?_, ?_⟩
  · -- frame on old nodes
    intro k hk hkni
    rw [B5 k (by omega) (by omega), B4 k (by omega) (by omega)]
    exact hst3frame k hk hkni
  · rw [T5size, T4size, hst3tri, hTsize]
  · exact T5perm.trans (T4perm.trans (by rw [hst3tri]; exact hTperm))
  · intro k hk
    rw [T5frame k (by omega), T4frame k (by omega), hst3tri]
    exact hTframe k hk
  · -- the subtree at nodeIdx covers [lo, lo + cnt)
    obtain ⟨f1, hf1⟩ := D4
    rw [hst3size] at hf1
    have hf1' : CoversF st5.nodes f1 L lo c1 (L + 2) :=
      CoversF_congr f1 st4.nodes st5.nodes (L + 1) A5 B5 L lo c1 (L + 2)
        (by omega) (by omega) hf1
    obtain ⟨f2, hf2⟩ := D5
    have hf2' : CoversF st5.nodes f2 (L + 1) (lo + c1) (cnt - c1) L :=
      CoversF_mono_b f2 _ _ _ _ _ _ (by omega) hf2
    refine ⟨max f1 f2 + 1, ⟨by omega, h4, Or.inr ⟨?_, L, c1, ?_, by omega,
      le_refl L, hc1pos, hc1lt, ?_, ?_⟩⟩⟩
    · rw [hparent5, hparent2]
    · rw [hparent5, hparent2]
    · exact CoversF_mono_fuel f1 (max f1 f2) (le_max_left _ _) _ _ _ _ _
        (CoversF_mono_b f1 _ _ _ _ _ _ (by omega) hf1')
    · exact CoversF_mono_fuel f2 (max f1 f2) (le_max_right _ _) _ _ _ _ _ hf2'
  · -- every appended node covers a nonempty subrange
    intro j hjL hjhi
    by_cases hj1 : j = L
    · obtain ⟨f1, hf1⟩ := D4
      rw [hst3size] at hf1
      have hf1' : CoversF st5.nodes f1 L lo c1 (L + 2) :=
        CoversF_congr f1 st4.nodes st5.nodes (L + 1) A5 B5 L lo c1 (L + 2)
          (by omega) (by omega) hf1
      refine ⟨lo, c1, hc1pos, le_refl _, by omega, ⟨f1, ?_⟩⟩
      rw [hj1]
      exact CoversF_mono_b f1 _ _ _ _ _ _ (by omega) hf1'
    · by_cases hj2 : j = L + 1
      · subst hj2
        obtain ⟨f2, hf2⟩ := D5
        exact ⟨lo + c1, cnt - c1, by omega, by omega, by omega,
          ⟨f2, CoversF_mono_b f2 _ _ _ _ _ _ (by omega) hf2⟩⟩
      · by_cases hj3 : j < st4.nodes.size
        · obtain ⟨lo2, cnt2, hcnt2, hlo2, hhi2, f3, hf3⟩ :=
            E4 j (by omega) hj3
          rw [hst3size] at hf3
          have hf3' : CoversF st5.nodes f3 j lo2 cnt2 (L + 2) :=
            CoversF_congr f3 st4.nodes st5.nodes (L + 1) A5 B5 j lo2 cnt2
              (L + 2) (by omega) (by omega) hf3
          exact ⟨lo2, cnt2, hcnt2, hlo2, by omega,
            ⟨f3, CoversF_mono_b f3 _ _ _ _ _ _ (by omega) hf3'⟩⟩
        · obtain ⟨lo2, cnt2, hcnt2, hlo2, hhi2, f3, hf3⟩ :=
            E5 j (by omega) hjhi
          exact ⟨lo2, cnt2, hcnt2, by omega, by omega,
            ⟨f3, CoversF_mono_b f3 _ _ _ _ _ _ (by omega) hf3⟩⟩

set_option maxHeartbeats 2000000 in
/-- The full contract of `subdivideNode`, by induction on the fuel: every
call on a leaf covering `[lo, lo + cnt)` grows the node array only by
well-formed subtrees, permutes the permutation array only within
`[lo, lo + cnt)` and leaves the rest of the state intact. -/
theorem subdivideNode_spec (m : Mesh) (centro : Array ℚ) :
    ∀ (fuel : ℕ) (st : BVHState) (nodeIdx lo cnt : ℕ),
    nodeIdx < st.nodes.size →
    (getN st.nodes nodeIdx default).leftFirst = (lo : ℤ) →
    (getN st.nodes nodeIdx default).triCount = (cnt : ℤ) →
    1 ≤ cnt →
    lo + cnt ≤ st.triIdx.size →
    SubdivideSpec st (subdivideNode m centro fuel st nodeIdx) nodeIdx lo cnt := by
  intro fuel
  induction fuel with
  | zero =>
    intro st nodeIdx lo cnt h1 h2 h3 h4 h5
    exact SubdivideSpec_refl st nodeIdx lo cnt h1 h2 h3 h4
  | succ n ih =>
    intro st nodeIdx lo cnt h1 h2 h3 h4 h5
    by_cases hA : (getN st.nodes nodeIdx default).triCount ≤ 4
    · rw [subdivideNode_eq_of_small m centro (n + 1) st nodeIdx hA]
      exact SubdivideSpec_refl st nodeIdx lo cnt h1 h2 h3 h4
    · by_cases hB : ((getN st.nodes nodeIdx default).triCount : ℚ) *
          (((getN st.nodes nodeIdx default).maxBounds.x -
              (getN st.nodes nodeIdx default).minBounds.x) *
            ((getN st.nodes nodeIdx default).maxBounds.y -
              (getN st.nodes nodeIdx default).minBounds.y) +
           ((getN st.nodes nodeIdx default).maxBounds.y -
              (getN st.nodes nodeIdx default).minBounds.y) *
            ((getN st.nodes nodeIdx default).maxBounds.z -
              (getN st.nodes nodeIdx default).minBounds.z) +
           ((getN st.nodes nodeIdx default).maxBounds.z -
              (getN st.nodes nodeIdx default).minBounds.z) *
            ((getN st.nodes nodeIdx default).maxBounds.x -
              (getN st.nodes nodeIdx default).minBounds.x)) ≤
          (bestSplit m centro st nodeIdx).2.2
      · rw [subdivideNode_eq_of_noSplit m centro (n + 1) st nodeIdx _ rfl hB]
        exact SubdivideSpec_refl st nodeIdx lo cnt h1 h2 h3 h4
      · obtain ⟨Psize, Pperm, Pframe, Plo, Phi⟩ :=
          partitionLoop_spec centro (bestSplit m centro st nodeIdx).1
            (bestSplit m centro st nodeIdx).2.1
            ((getN st.nodes nodeIdx default).triCount.toNat + 1) st.triIdx
            (getN st.nodes nodeIdx default).leftFirst
            ((getN st.nodes nodeIdx default).leftFirst +
              (getN st.nodes nodeIdx default).triCount - 1)
            (by rw [h2]; omega) (by rw [h2, h3]; omega)
            (by rw [h2, h3]; omega)
        set p := partitionLoop centro (bestSplit m centro st nodeIdx).1
            (bestSplit m centro st nodeIdx).2.1
            ((getN st.nodes nodeIdx default).triCount.toNat + 1) st.triIdx
            (getN st.nodes nodeIdx default).leftFirst
            ((getN st.nodes nodeIdx default).leftFirst +
              (getN st.nodes nodeIdx default).triCount - 1) with hpdef
        rw [h2] at Plo
        rw [h2, h3] at Phi
        rw [h2, h3] at Pframe
        by_cases hC : p.2 - (getN st.nodes nodeIdx default).leftFirst = 0 ∨
            p.2 - (getN st.nodes nodeIdx default).leftFirst =
              (getN st.nodes nodeIdx default).triCount
        · rw [subdivideNode_eq_of_guard m centro n st nodeIdx _ rfl hA hB p
            hpdef hC]
          unfold SubdivideSpec
          refine ⟨le_refl _, fun k _ _ => rfl, Psize, Pperm, ?_,
            ⟨1, h1, h4, Or.inl ⟨?_, h2, h3⟩⟩,
            fun j hj hj2 => absurd hj (not_le.mpr hj2)⟩
          · intro k hk
            exact Pframe k (by omega)
          · show (getN st.nodes nodeIdx default).triCount ≠ 0
            rw [h3]
            omega
        · have hCne := not_or.mp hC
          have hc1a : p.2 - ((lo : ℕ) : ℤ) ≠ 0 := by rw [← h2]; exact hCne.1
          have hc1b : p.2 - ((lo : ℕ) : ℤ) ≠ ((cnt : ℕ) : ℤ) := by
            rw [← h2, ← h3]; exact hCne.2
          set c1 : ℕ := (p.2 - ((lo : ℕ) : ℤ)).toNat with hc1def
          have hc1 : ((c1 : ℕ) : ℤ) = p.2 - ((lo : ℕ) : ℤ) := by
            rw [hc1def]; omega
          have hc1pos : 1 ≤ c1 := by omega
          have hc1lt : c1 < cnt := by omega
          rw [subdivideNode_eq_of_split m centro n st nodeIdx _ rfl hA hB p
            hpdef hC]
          rw [h2, h3]
          have hp2 : p.2 = ((lo + c1 : ℕ) : ℤ) := by push_cast; omega
          rw [hp2]
          have e1 : ((lo + c1 : ℕ) : ℤ) - ((lo : ℕ) : ℤ) = ((c1 : ℕ) : ℤ) := by
            push_cast; ring
          rw [e1]
          have e2 : ((cnt : ℕ) : ℤ) - ((c1 : ℕ) : ℤ) = ((cnt - c1 : ℕ) : ℤ) := by
            omega
          rw [e2]
          exact subdivide_split_assemble m centro n st nodeIdx lo cnt c1 p.1
            h1 h4 h5 hc1pos hc1lt Psize Pperm
            (fun k hk => Pframe k (by omega)) ih

/-- `buildBVH` on a non-empty triangle set: the permutation array has
length `N` and is a permutation of `[0, N)`, the root subtree covers the
whole range, and every node of the array is root of a subtree covering
some nonempty subrange of `[0, N)`. -/
theorem buildBVH_covers (m : Mesh) (hN : 1 ≤ m.triangles.size) :
    (buildBVH m).triIdx.size = m.triangles.size ∧
    ((buildBVH m).triIdx.toList).Perm (List.range m.triangles.size) ∧
    Covers (buildBVH m).nodes 0 0 m.triangles.size ∧
    (∀ j, j < (buildBVH m).nodes.size →
      ∃ lo cnt, 1 ≤ cnt ∧ lo + cnt ≤ m.triangles.size ∧
        Covers (buildBVH m).nodes j lo cnt) := by
  have hbuild : buildBVH m = subdivideNode m (triCentroids m) m.triangles.size
      (updateNodeBounds m
        ⟨#[{ (default : BVHNode) with
          leftFirst := 0
          triCount := (m.triangles.size : ℤ) }],
         Array.range m.triangles.size⟩ 0) 0 := by
    unfold buildBVH
    rw [if_neg (by omega)]
  set root : BVHNode := { (default : BVHNode) with
    leftFirst := 0
    triCount := (m.triangles.size : ℤ) } with hroot
  set st1 := updateNodeBounds m ⟨#[root], Array.range m.triangles.size⟩ 0
    with hst1
  have hsize1 : st1.nodes.size = 1 := by
    rw [hst1, updateNodeBounds_size]
    rfl
  have htri1 : st1.triIdx = Array.range m.triangles.size := by
    rw [hst1, updateNodeBounds_triIdx]
  have hget0 : getN (#[root] : Array BVHNode) 0 default = root := by
    simp [getN, Array.getD]
  have hfields := updateNodeBounds_fields m
    ⟨#[root], Array.range m.triangles.size⟩ 0 0
  have h2 : (getN st1.nodes 0 default).leftFirst = ((0 : ℕ) : ℤ) := by
    rw [hst1, hfields.1]
    show (getN (#[root] : Array BVHNode) 0 default).leftFirst = ((0 : ℕ) : ℤ)
    rw [hget0, hroot]
    simp
  have h3 : (getN st1.nodes 0 default).triCount = (m.triangles.size : ℤ) := by
    rw [hst1, hfields.2]
    show (getN (#[root] : Array BVHNode) 0 default).triCount =
      (m.triangles.size : ℤ)
    rw [hget0, hroot]
  have hspec := subdivideNode_spec m (triCentroids m) m.triangles.size st1 0 0
    m.triangles.size (by omega) h2 h3 hN
    (by rw [htri1, Array.size_range]; omega)
  rw [← hbuild] at hspec
  unfold SubdivideSpec at hspec
  obtain ⟨A1, B1, T1size, T1perm, T1frame, D1, E1⟩ := hspec
  have hperm : ((buildBVH m).triIdx.toList).Perm (List.range m.triangles.size) := by
    have := T1perm
    rw [htri1, Array.toList_range] at this
    exact this
  have hcov0 : Covers (buildBVH m).nodes 0 0 m.triangles.size := by
    obtain ⟨f, hf⟩ := D1
    exact ⟨f, CoversF_mono_b f _ _ _ _ _ _ (by omega) hf⟩
  refine ⟨by rw [T1size, htri1, Array.size_range], hperm, hcov0, ?_⟩
  intro j hj
  by_cases hj0 : j = 0
  · subst hj0
    exact ⟨0, m.triangles.size, hN, by omega, hcov0⟩
  · obtain ⟨lo2, cnt2, hcnt2, hlo2, hhi2, f, hf⟩ := E1 j (by omega) hj
    exact ⟨lo2, cnt2, hcnt2, by omega,
      ⟨f, CoversF_mono_b f _ _ _ _ _ _ (by omega) hf⟩⟩

/-- Destructure `Covers` at an internal node: the two children exist at
`leftFirst` and `leftFirst + 1` and cover the two halves of the range. -/
theorem Covers_internal_elim (arr : Array BVHNode) (j lo cnt : ℕ)
    (h : Covers arr j lo cnt) (hint : (getN arr j default).triCount = 0) :
    ∃ lf c1 : ℕ, (getN arr j default).leftFirst = (lf : ℤ) ∧ j < lf ∧
      lf + 1 < arr.size ∧ 1 ≤ c1 ∧ c1 < cnt ∧
      Covers arr lf lo c1 ∧ Covers arr (lf + 1) (lo + c1) (cnt - c1) := by
  obtain ⟨f, hf⟩ := h
  cases f with
  | zero => exact hf.elim
  | succ n =>
    obtain ⟨hj, hcnt, hc⟩ := hf
    rcases hc with ⟨hne, _, _⟩ | ⟨_, lf, c1, hlf, hjlf, _, hc1, hc1cnt, hL, hR⟩
    · exact absurd hint hne
    · have hlt : lf + 1 < arr.size := by
        cases n with
        | zero => exact hR.elim
        | succ n2 => exact hR.1
      exact ⟨lf, c1, hlf, hjlf, hlt, hc1, hc1cnt, ⟨n, hL⟩, ⟨n, hR⟩⟩

/-- Destructure `Covers` at a leaf: its stored fields are exactly the
covered range. -/
theorem Covers_leaf_elim (arr : Array BVHNode) (j lo cnt : ℕ)
    (h : Covers arr j lo cnt) (hleaf : (getN arr j default).triCount ≠ 0) :
    (getN arr j default).leftFirst = (lo : ℤ) ∧
    (getN arr j default).triCount = (cnt : ℤ) ∧ 1 ≤ cnt := by
  obtain ⟨f, hf⟩ := h
  cases f with
  | zero => exact hf.elim
  | succ n =>
    obtain ⟨hj, hcnt, hc⟩ := hf
    rcases hc with ⟨_, hlf, htc⟩ | ⟨hzero, _⟩
    · exact ⟨hlf, htc, hcnt⟩
    · exact absurd hzero hleaf

/-- C2: after `buildBVH` on a mesh with at least one triangle, the
triangle-index array `m_bvhTriIndices` has length `N` and is a
permutation of `[0, N)` (it starts as the identity ordering — see
`buildBVH` — and the build only ever swaps entries, see
`partitionLoop`). -/
theorem buildBVH_triIdx_perm (m : Mesh) (hN : 1 ≤ m.triangles.size) :
    (buildBVH m).triIdx.size = m.triangles.size ∧
    ((buildBVH m).triIdx.toList).Perm (List.range m.triangles.size) := by
  obtain ⟨hsize, hperm, _, _⟩ := buildBVH_covers m hN
  exact ⟨hsize, hperm⟩

/-- Witness for C2 at the concrete one-triangle mesh. -/
theorem buildBVH_triIdx_perm_witness :
    1 ≤ rightTriMesh.triangles.size ∧
    ((buildBVH rightTriMesh).triIdx.size = rightTriMesh.triangles.size ∧
     ((buildBVH rightTriMesh).triIdx.toList).Perm
       (List.range rightTriMesh.triangles.size)) := by
  have h : 1 ≤ rightTriMesh.triangles.size := by with_unfolding_all decide
  exact ⟨h, buildBVH_triIdx_perm rightTriMesh h⟩

/-- C1: after `buildBVH` on a mesh with at least one triangle, every
internal node (`triCount = 0`) of the node array has its two children at
`leftFirst` and `leftFirst + 1`; their subtree triangle counts `c1`, `c2`
sum to the parent's pre-split count `cnt`, and their permutation ranges
`[lo, lo + c1)` and `[lo + c1, lo + c1 + c2)` are disjoint, contiguous
and exactly partition the parent's pre-split range `[lo, lo + cnt)`
(a child's subtree range is its stored `(leftFirst, triCount)` when it is
a leaf — see `Covers_leaf_elim`). -/
theorem buildBVH_internal_partition (m : Mesh) (hN : 1 ≤ m.triangles.size) :
    ∀ j, j < (buildBVH m).nodes.size →
      (getN (buildBVH m).nodes j default).triCount = 0 →
      ∃ lf lo cnt c1 c2 : ℕ,
        (getN (buildBVH m).nodes j default).leftFirst = (lf : ℤ) ∧
        lf + 1 < (buildBVH m).nodes.size ∧
        Covers (buildBVH m).nodes j lo cnt ∧
        Covers (buildBVH m).nodes lf lo c1 ∧
        Covers (buildBVH m).nodes (lf + 1) (lo + c1) c2 ∧
        c1 + c2 = cnt ∧ 1 ≤ c1 ∧ 1 ≤ c2 ∧
        lo + cnt ≤ m.triangles.size := by
  intro j hj hint
  obtain ⟨_, _, _, hall⟩ := buildBVH_covers m hN
  obtain ⟨lo, cnt, hcnt, hbound, hcov⟩ := hall j hj
  obtain ⟨lf, c1, hlf, hjlf, hlt, hc1, hc1cnt, hL, hR⟩ :=
    Covers_internal_elim (buildBVH m).nodes j lo cnt hcov hint
  exact ⟨lf, lo, cnt, c1, cnt - c1, hlf, hlt, hcov, hL, hR, by omega,
    hc1, by omega, hbound⟩

/-- Witness for C1 at the concrete one-triangle mesh. -/
theorem buildBVH_internal_partition_witness :
    1 ≤ rightTriMesh.triangles.size ∧
    (∀ j, j < (buildBVH rightTriMesh).nodes.size →
      (getN (buildBVH rightTriMesh).nodes j default).triCount = 0 →
      ∃ lf lo cnt c1 c2 : ℕ,
        (getN (buildBVH rightTriMesh).nodes j default).leftFirst = (lf : ℤ) ∧
        lf + 1 < (buildBVH rightTriMesh).nodes.size ∧
        Covers (buildBVH rightTriMesh).nodes j lo cnt ∧
        Covers (buildBVH rightTriMesh).nodes lf lo c1 ∧
        Covers (buildBVH rightTriMesh).nodes (lf + 1) (lo + c1) c2 ∧
        c1 + c2 = cnt ∧ 1 ≤ c1 ∧ 1 ≤ c2 ∧
        lo + cnt ≤ rightTriMesh.triangles.size) := by
  have h : 1 ≤ rightTriMesh.triangles.size := by with_unfolding_all decide
  exact ⟨h, buildBVH_internal_partition rightTriMesh h⟩

/-- C10: after `buildBVH` on a non-empty triangle set, every node of the
array roots a subtree covering a nonempty subrange of `[0, N)`; every
leaf (`triCount ≠ 0`) stores a nonempty in-bounds range, and every
internal node has exactly two children with strictly positive subtree
triangle counts. -/
theorem buildBVH_leaves_nonempty (m : Mesh) (hN : 1 ≤ m.triangles.size) :
    ∀ j, j < (buildBVH m).nodes.size →
      (∃ lo cnt : ℕ, 1 ≤ cnt ∧ lo + cnt ≤ m.triangles.size ∧
        Covers (buildBVH m).nodes j lo cnt) ∧
      ((getN (buildBVH m).nodes j default).triCount ≠ 0 →
        ∃ lo cnt : ℕ,
          (getN (buildBVH m).nodes j default).leftFirst = (lo : ℤ) ∧
          (getN (buildBVH m).nodes j default).triCount = (cnt : ℤ) ∧
          1 ≤ cnt ∧ lo + cnt ≤ m.triangles.size) ∧
      ((getN (buildBVH m).nodes j default).triCount = 0 →
        ∃ lf lo c1 c2 : ℕ,
          (getN (buildBVH m).nodes j default).leftFirst = (lf : ℤ) ∧
          lf + 1 < (buildBVH m).nodes.size ∧ 1 ≤ c1 ∧ 1 ≤ c2 ∧
          Covers (buildBVH m).nodes lf lo c1 ∧
          Covers (buildBVH m).nodes (lf + 1) (lo + c1) c2) := by
  intro j hj
  obtain ⟨_, _, _, hall⟩ := buildBVH_covers m hN
  obtain ⟨lo, cnt, hcnt, hbound, hcov⟩ := hall j hj
  refine ⟨⟨lo, cnt, hcnt, hbound, hcov⟩, ?_, ?_⟩
  · intro hleaf
    obtain ⟨hlf, htc, hc⟩ :=
      Covers_leaf_elim (buildBVH m).nodes j lo cnt hcov hleaf
    exact ⟨lo, cnt, hlf, htc, hc, hbound⟩
  · intro hint
    obtain ⟨lf, c1, hlf, hjlf, hlt, hc1, hc1cnt, hL, hR⟩ :=
      Covers_internal_elim (buildBVH m).nodes j lo cnt hcov hint
    exact ⟨lf, lo, c1, cnt - c1, hlf, hlt, hc1, by omega, hL, hR⟩

/-- Witness for C10 at the concrete one-triangle mesh. -/
theorem buildBVH_leaves_nonempty_witness :
    1 ≤ rightTriMesh.triangles.size ∧
    (∀ j, j < (buildBVH rightTriMesh).nodes.size →
      (∃ lo cnt : ℕ, 1 ≤ cnt ∧ lo + cnt ≤ rightTriMesh.triangles.size ∧
        Covers (buildBVH rightTriMesh).nodes j lo cnt) ∧
      ((getN (buildBVH rightTriMesh).nodes j default).triCount ≠ 0 →
        ∃ lo cnt : ℕ,
          (getN (buildBVH rightTriMesh).nodes j default).leftFirst = (lo : ℤ) ∧
          (getN (buildBVH rightTriMesh).nodes j default).triCount = (cnt : ℤ) ∧
          1 ≤ cnt ∧ lo + cnt ≤ rightTriMesh.triangles.size) ∧
      ((getN (buildBVH rightTriMesh).nodes j default).triCount = 0 →
        ∃ lf lo c1 c2 : ℕ,
          (getN (buildBVH rightTriMesh).nodes j default).leftFirst = (lf : ℤ) ∧
          lf + 1 < (buildBVH rightTriMesh).nodes.size ∧ 1 ≤ c1 ∧ 1 ≤ c2 ∧
          Covers (buildBVH rightTriMesh).nodes lf lo c1 ∧
          Covers (buildBVH rightTriMesh).nodes (lf + 1) (lo + c1) c2)) := by
  have h : 1 ≤ rightTriMesh.triangles.size := by with_unfolding_all decide
  exact ⟨h, buildBVH_leaves_nonempty rightTriMesh h⟩

/-- Writing a triangle with an unchanged material index preserves all
material indices. -/
theorem getN_setN_material (a : Array Triangle) (i j : ℕ) (t : Triangle)
    (h : t.materialIndex = (getN a i default).materialIndex) :
    (getN (setN a i t) j default).materialIndex =
    (getN a j default).materialIndex := by
  by_cases hij : i = j
  · subst hij
    by_cases hi : i < a.size
    · rw [getN_setN_eq _ _ _ _ hi, h]
    · have hno : setN a i t = a := by unfold setN; rw [dif_neg hi]
      rw [hno]
  · rw [getN_setN_ne _ _ _ _ _ hij]

/-- `updateTri` never changes a triangle's material index. -/
theorem updateTri_material (nv v1 : ℕ) (st : DecState) (ti ti2 : ℕ) :
    (getN (updateTri nv v1 st ti).triangles ti2 default).materialIndex =
    (getN st.triangles ti2 default).materialIndex := by
  unfold updateTri
  dsimp only
  split
  · rfl
  · split
    · exact getN_setN_material _ _ _ _ rfl
    · exact getN_setN_material _ _ _ _ rfl

/-- Folding `updateTri` over any triangle list preserves material
indices. -/
theorem foldl_updateTri_material (nv v1 : ℕ) :
    ∀ (l : List ℕ) (st : DecState) (ti2 : ℕ),
    (getN ((l.foldl (updateTri nv v1) st).triangles) ti2 default).materialIndex =
    (getN st.triangles ti2 default).materialIndex := by
  intro l
  induction l with
  | nil => intro st ti2; rfl
  | cons t rest ih =>
    intro st ti2
    rw [List.foldl_cons, ih, updateTri_material]

/-- The collapse loop never changes any triangle's material index. -/
theorem decimateLoop_material (nv : ℕ) (sq : ℚ → ℚ) (target : ℕ) :
    ∀ (fuel : ℕ) (st : DecState) (ti : ℕ),
    (getN ((decimateLoop nv sq target fuel st).1.triangles) ti
      default).materialIndex =
    (getN st.triangles ti default).materialIndex := by
  intro fuel
  induction fuel with
  | zero => intro st ti; rfl
  | succ n ih =>
    intro st ti
    rw [decimateLoop]
    dsimp only
    split
    · rfl
    · split
      · rfl
      · split <;>
          first
          | exact ih _ ti
          | (rw [ih]; exact foldl_updateTri_material nv _ _ _ ti)
          | (split <;>
              first
              | exact ih _ ti
              | (rw [ih]; exact foldl_updateTri_material nv _ _ _ ti)
              | (split <;>
                  first
                  | exact ih _ ti
                  | (rw [ih]; exact foldl_updateTri_material nv _ _ _ ti)))

/-- One compaction step appends at most one triangle. -/
theorem compactStep_size_le (nv : ℕ) (st : DecState) (ov : Array Vertex)
    (acc : Array ℕ × List (ℕ × ℕ) × Array Vertex × Array Triangle) (ti : ℕ) :
    (compactStep nv st ov acc ti).2.2.2.size ≤ acc.2.2.2.size + 1 := by
  unfold compactStep
  dsimp only
  split
  · omega
  · split
    · simp [Array.size_push]
    · simp

/-- The compaction pass appends at most one triangle per original slot. -/
theorem compactFold_size_le (nv : ℕ) (st : DecState) (ov : Array Vertex) :
    ∀ (l : List ℕ) (acc : Array ℕ × List (ℕ × ℕ) × Array Vertex × Array Triangle),
    ((l.foldl (compactStep nv st ov) acc).2.2.2).size ≤
      acc.2.2.2.size + l.length := by
  intro l
  induction l with
  | nil => intro acc; simp
  | cons t rest ih =>
    intro acc
    rw [List.foldl_cons]
    have h1 := ih (compactStep nv st ov acc t)
    have h2 := compactStep_size_le nv st ov acc t
    simp only [List.length_cons]
    omega

/-- One compaction step preserves a predicate on the produced material
indices, given it holds of the processed triangle's material index. -/
theorem compactStep_material (nv : ℕ) (st : DecState) (ov : Array Vertex)
    (acc : Array ℕ × List (ℕ × ℕ) × Array Vertex × Array Triangle) (ti : ℕ)
    (P : ℕ → Prop)
    (hacc : ∀ k, k < acc.2.2.2.size → P ((getN acc.2.2.2 k default).materialIndex))
    (hti : P ((getN st.triangles ti default).materialIndex)) :
    ∀ k, k < (compactStep nv st ov acc ti).2.2.2.size →
      P ((getN (compactStep nv st ov acc ti).2.2.2 k default).materialIndex) := by
  intro k hk
  unfold compactStep at hk ⊢
  dsimp only at hk ⊢
  split at hk
  · next h1 =>
    rw [if_pos h1]
    exact hacc k hk
  · next h1 =>
    rw [if_neg h1]
    split at hk
    · next h2 =>
      rw [if_pos h2]
      dsimp only at hk ⊢
      rw [Array.size_push] at hk
      by_cases hlt : k < acc.2.2.2.size
      · rw [getN_push_lt _ _ _ _ hlt]
        exact hacc k hlt
      · have hke : k = acc.2.2.2.size := by omega
        subst hke
        rw [getN_push_eq]
        exact hti
    · next h2 =>
      rw [if_neg h2]
      exact hacc k hk

/-- Every triangle produced by the compaction pass inherits the material
index of a still-valid loop-state triangle whose slot is in the processed
list. -/
theorem compactFold_material (nv : ℕ) (st : DecState) (ov : Array Vertex)
    (P : ℕ → Prop) :
    ∀ (l : List ℕ)
    (acc : Array ℕ × List (ℕ × ℕ) × Array Vertex × Array Triangle),
    (∀ ti ∈ l, P ((getN st.triangles ti default).materialIndex)) →
    (∀ k, k < acc.2.2.2.size → P ((getN acc.2.2.2 k default).materialIndex)) →
    ∀ k, k < ((l.foldl (compactStep nv st ov) acc).2.2.2).size →
      P ((getN ((l.foldl (compactStep nv st ov) acc).2.2.2) k
        default).materialIndex) := by
  intro l
  induction l with
  | nil => intro acc _ hacc k hk; exact hacc k hk
  | cons t rest ih =>
    intro acc hl hacc k hk
    rw [List.foldl_cons] at hk ⊢
    refine ih (compactStep nv st ov acc t)
      (fun ti hti => hl ti (List.mem_cons_of_mem t hti)) ?_ k hk
    exact compactStep_material nv st ov acc t P hacc
      (hl t (List.mem_cons_self t rest))

/-- The two clamp orders coincide: clamping `r` into `[0.01, 1]` written
as the code does (`max(0.01, min(1.0, r))`) equals the spec's
`min(max(r, 0.01), 1)`. -/
theorem clamp_comm (r : ℚ) :
    max (1/100 : ℚ) (min 1 r) = min (max r (1/100)) 1 := by
  rcases le_total r (1/100) with h | h
  · rw [min_eq_right (h.trans (by norm_num)), max_eq_left h,
      max_eq_right h, min_eq_left (by norm_num)]
  · rcases le_total r 1 with h2 | h2
    · rw [min_eq_right h2, max_eq_right h, max_eq_left h, min_eq_left h2]
    · rw [min_eq_left h2, max_eq_right (by norm_num : (1/100 : ℚ) ≤ 1),
        max_eq_left ((by norm_num : (1/100 : ℚ) ≤ 1).trans h2), min_eq_right h2]

/-- The compacted triangle array is at most as long as the original. -/
theorem decimateRun_size_le (sq ac : ℚ → ℚ) (fuel : ℕ) (m : Mesh) (r : ℚ) :
    (decimateRun sq ac fuel m r).1.triangles.size ≤ m.triangles.size := by
  show (decimateCompact m.vertices.size _ m.vertices
    m.triangles.size).2.2.2.size ≤ m.triangles.size
  unfold decimateCompact
  refine le_trans (compactFold_size_le m.vertices.size _ m.vertices
    (List.range m.triangles.size) _) ?_
  simp

/-- `decimateRun` keeps the material array. -/
theorem decimateRun_materials (sq ac : ℚ → ℚ) (fuel : ℕ) (m : Mesh) (r : ℚ) :
    (decimateRun sq ac fuel m r).1.materials = m.materials := rfl

/-- C6 as amended: `decimate(r)` is a no-op when `r ≥ 1` or the triangle
list is empty; otherwise it clamps `r` to `[0.01, 1]` and sets the target
to `max(4, floor(count·r))` (shown against the spec's clamp order), and
the output triangle count never exceeds the input count.  The claimed
lower bound `max(4, floor(count·r))` does not hold in general — a single
collapse can invalidate several triangles, ending below the target (see
the counterexample) — so it is not part of this statement. -/
theorem decimate_spec (sq ac : ℚ → ℚ) (fuel : ℕ) (m : Mesh) (r : ℚ) :
    (m.triangles.size = 0 ∨ 1 ≤ r → (Mesh.decimate sq ac fuel m r).1 = m) ∧
    decimateTarget m.triangles.size r =
      max 4 (((m.triangles.size : ℚ) * (min (max r (1/100)) 1)).floor.toNat) ∧
    (Mesh.decimate sq ac fuel m r).1.triangles.size ≤ m.triangles.size := by
  refine ⟨?_, ?_, ?_⟩
  · intro h
    unfold Mesh.decimate
    rw [if_pos h]
  · unfold decimateTarget
    rw [clamp_comm, Nat.max_comm]
  · unfold Mesh.decimate
    split
    · exact le_refl _
    · exact decimateRun_size_le sq ac fuel m r

/-- Witness for C6's amended statement: ratio 2 is a no-op on the
concrete mesh, and a ratio-1/2 run never grows the triangle count. -/
theorem decimate_spec_witness :
    ((rightTriMesh.triangles.size = 0 ∨ 1 ≤ (2 : ℚ)) ∧
      (Mesh.decimate id id 5 rightTriMesh 2).1 = rightTriMesh) ∧
    (Mesh.decimate id id 5 rightTriMesh (1/2)).1.triangles.size ≤
      rightTriMesh.triangles.size := by
  have h : rightTriMesh.triangles.size = 0 ∨ 1 ≤ (2 : ℚ) :=
    Or.inr (by norm_num)
  exact ⟨⟨h, (decimate_spec id id 5 rightTriMesh 2).1 h⟩,
    (decimate_spec id id 5 rightTriMesh (1/2)).2.2⟩

/-- C6 counterexample for the claimed lower bound: on the concrete
5-triangle mesh with ratio 4/5 the target is `max(4, floor(5·4/5)) = 4`,
the collapse loop reaches a genuine exit (reported by the `true` flag:
one collapse of the cheapest edge invalidates both triangles sharing it,
dropping the valid count from 5 to 3 ≤ 4), and the output has only 3
triangles — strictly below the claimed lower bound 4, although further
collapsible edges remained in the queue. -/
theorem decimate_undershoots_target :
    (Mesh.decimate (fun _ => 0) (fun _ => 0) 10 cex5Mesh (4/5)).2 = true ∧
    (Mesh.decimate (fun _ => 0) (fun _ => 0) 10 cex5Mesh (4/5)).1.triangles.size
      = 3 ∧
    max 4 (((cex5Mesh.triangles.size : ℚ) * (4/5)).floor.toNat) = 4 ∧
    (Mesh.decimate (fun _ => 0) (fun _ => 0) 10 cex5Mesh (4/5)).1.triangles.size
      < max 4 (((cex5Mesh.triangles.size : ℚ) * (4/5)).floor.toNat) := by
  with_unfolding_all decide

/-- Every triangle surviving `decimateRun` inherits its material index
from some input triangle. -/
theorem decimateRun_material (sq ac : ℚ → ℚ) (fuel : ℕ) (m : Mesh) (r : ℚ) :
    ∀ k, k < (decimateRun sq ac fuel m r).1.triangles.size →
      ∃ j, j < m.triangles.size ∧
        (getN (decimateRun sq ac fuel m r).1.triangles k default).materialIndex =
        (getN m.triangles j default).materialIndex := by
  intro k hk
  refine compactFold_material m.vertices.size _ m.vertices
    (fun mi => ∃ j, j < m.triangles.size ∧
      mi = (getN m.triangles j default).materialIndex)
    (List.range m.triangles.size) _ ?_ ?_ k hk
  · intro ti hti
    refine ⟨ti, List.mem_range.mp hti, ?_⟩
    rw [decimateLoop_material]
  · intro k2 hk2
    exact absurd hk2 (by simp)

/-- C9: every triangle surviving `decimate` keeps a material index taken
from an input triangle (the compaction copies `materialIndex` verbatim
and the collapse loop never writes it), and `decimate` never alters the
material array. -/
theorem decimate_material_preserved (sq ac : ℚ → ℚ) (fuel : ℕ) (m : Mesh)
    (r : ℚ) :
    (Mesh.decimate sq ac fuel m r).1.materials = m.materials ∧
    (∀ k, k < (Mesh.decimate sq ac fuel m r).1.triangles.size →
      ∃ j, j < m.triangles.size ∧
        (getN (Mesh.decimate sq ac fuel m r).1.triangles k
          default).materialIndex =
        (getN m.triangles j default).materialIndex) := by
  constructor
  · unfold Mesh.decimate
    split
    · rfl
    · exact decimateRun_materials sq ac fuel m r
  · unfold Mesh.decimate
    split
    · intro k hk
      exact ⟨k, hk, rfl⟩
    · exact decimateRun_material sq ac fuel m r

/-- Witness for C9 at a concrete mesh (ratio 2 exercises the no-op path;
the surviving triangle keeps its material index). -/
theorem decimate_material_preserved_witness :
    (Mesh.decimate id id 5 rightTriMesh 2).1.materials =
      rightTriMesh.materials ∧
    (0 < (Mesh.decimate id id 5 rightTriMesh 2).1.triangles.size ∧
     ∃ j, j < rightTriMesh.triangles.size ∧
       (getN (Mesh.decimate id id 5 rightTriMesh 2).1.triangles 0
         default).materialIndex =
       (getN rightTriMesh.triangles j default).materialIndex) := by
  have h0 : 0 < (Mesh.decimate id id 5 rightTriMesh 2).1.triangles.size := by
    with_unfolding_all decide
  exact ⟨(decimate_material_preserved id id 5 rightTriMesh 2).1,
    ⟨h0, (decimate_material_preserved id id 5 rightTriMesh 2).2 0 h0⟩⟩
